import Mathlib

/-!
# Frache cache layer — a shallow embedding with verified properties

This file embeds the core of the `frache` caching library (a TypeScript
cache-metadata layer over Redis) into Lean 4 and proves properties of the
embedded operations.

Embedded components, translated from the library source:
* the key/value codec utilities (`generateCacheKey`, `validateKey`,
  `serialize`, `deserialize`, `shouldCompress`, `generateScanPattern`,
  `parseTtl`);
* a model of the Redis backing store restricted to the primitives the
  library uses (string records with per-key TTL, hash records for
  metadata, `scan` by glob pattern, batched `del`, `expire`);
* the core cache operations `set`, `get`, `del`, `deleteByPattern`,
  `clearByTags`, with their statistics counters and event emission;
* the warmup scheduler (`registerWarmupTask`, `queueWarmupTask`,
  `processWarmupQueue`, `executeWarmupTask`, `runWarmupTask`);
* the constructor's configuration defaulting.

Modelling decisions (stated once here, noted again at the definitions
they affect):
* JavaScript values handled by the value codec are modelled by the JSON
  tree `JVal`; JSON numerals are restricted to integer numerals (no
  fraction/exponent syntax), and `JSON.parse` / `JSON.stringify` are
  modelled by `jsonParse` / `encodeVal` over that grammar.
* gzip compression is an external collaborator; it enters the model as
  an explicit pair of functions, with its round-trip contract as a
  hypothesis where a theorem needs it.
* The user-supplied asynchronous routine of a warmup task is modelled by
  the settled outcome of the `Promise.race` the scheduler builds around
  it: a `result` field plus an `exceedsTimeout` flag.
* `async` methods are modelled as pure state transformers (the library
  runs on one event loop and none of the proved properties involve
  interleaving between two in-flight operations).
-/

namespace Frache

/-! ## Key codec utilities (from `src/utils.ts`) -/

/-- Truthiness of a JS string option: `undefined` and `""` are falsy. -/
def strTruthy : Option String → Bool
  | none => false
  | some s => !(s == "")

/-- `generateCacheKey(key, namespace?, keyPrefix?)`: join the truthy parts
with `":"`, prefix first, namespace second, logical key last. -/
def generateCacheKey (key : String) (ns : Option String) (keyPref : Option String) : String :=
  let parts : List String :=
    (if strTruthy keyPref then [keyPref.getD ""] else [])
      ++ (if strTruthy ns then [ns.getD ""] else [])
      ++ [key]
  String.intercalate ":" parts

/-- `generateScanPattern(pattern, namespace?, keyPrefix?)`: same joining
rule applied to a wildcard pattern. -/
def generateScanPattern (pat : String) (ns : Option String) (keyPref : Option String) : String :=
  let parts : List String :=
    (if strTruthy keyPref then [keyPref.getD ""] else [])
      ++ (if strTruthy ns then [ns.getD ""] else [])
      ++ [pat]
  String.intercalate ":" parts

/-- A key character the validator rejects: CR, LF, TAB, NUL. -/
def badKeyChar (c : Char) : Bool :=
  c == '\r' || c == '\n' || c == '\t' || c.toNat == 0

/-- `validateKey(key)`: non-empty, at most 250 characters, none of
CR/LF/TAB/NUL; violations throw before any store access. -/
def validateKey (key : String) : Except String Unit :=
  if key == "" then .error "Cache key must be a non-empty string"
  else if 250 < key.length then .error "Cache key is too long (max 250 characters)"
  else if key.data.any badKeyChar then .error "Cache key contains invalid characters"
  else .ok ()

/-- `parseTtl(ttl?)` restricted to the numeric branch of the source
(string-typed TTLs never occur in the embedded call sites): a number
passes through, `undefined` stays `undefined`. -/
def parseTtl (ttl : Option Int) : Option Int := ttl

/-- JS `x || d` on a number: `undefined`, `NaN` and `0` fall to the
default, every other number is kept. -/
def orTruthyInt (x : Option Int) (d : Int) : Int :=
  match x with
  | some v => if v == 0 then d else v
  | none => d

/-- JS `b || d` on a boolean option: only `true` survives, `false` and
`undefined` fall to the default. -/
def orTruthyBool (x : Option Bool) (d : Bool) : Bool :=
  match x with
  | some true => true
  | _ => d

/-- JS `String.prototype.replace` with a string pattern: replace the
first occurrence of `pat` (no occurrence: unchanged). -/
def replaceFirst : List Char → List Char → List Char → List Char
  | [], _, _ => []
  | c :: rest, pat, repl =>
    if pat.isPrefixOf (c :: rest) then repl ++ (c :: rest).drop pat.length
    else c :: replaceFirst rest pat repl

/-- Redis glob matching restricted to the `*` wildcard (the only
metacharacter the library's generated patterns contain), with explicit
fuel to keep the definition structurally recursive. -/
def globMatchF : Nat → List Char → List Char → Bool
  | 0, _, _ => false
  | _ + 1, [], [] => true
  | _ + 1, [], _ :: _ => false
  | fuel + 1, c :: ps, [] => c == '*' && globMatchF fuel ps []
  | fuel + 1, c :: ps, d :: ss =>
    if c == '*' then globMatchF fuel ps (d :: ss) || globMatchF fuel (c :: ps) ss
    else c == d && globMatchF fuel ps ss

/-- Whether glob pattern `pat` matches the whole key `s`. -/
def globMatch (pat s : String) : Bool :=
  globMatchF (pat.data.length + s.data.length + 1) pat.data s.data

/-! ## JSON value model

JavaScript values passing through the value codec are modelled as JSON
trees.  Numerals are restricted to integers: fraction and exponent
syntax is outside the model (`jsonParse` rejects it where `JSON.parse`
would build a float). -/

mutual
inductive JVal where
  | jnull : JVal
  | jbool : Bool → JVal
  | jnum : Int → JVal
  | jstr : String → JVal
  | jarr : JList → JVal
  | jobj : JFields → JVal
deriving DecidableEq
inductive JList where
  | jnil : JList
  | jcons : JVal → JList → JList
deriving DecidableEq
inductive JFields where
  | fnil : JFields
  | fcons : String → JVal → JFields → JFields
deriving DecidableEq
end

/-- Hexadecimal digit character (lower case), as `JSON.stringify` emits
in `\u00XX` escapes. -/
def hexDigit (n : Nat) : Char :=
  if n < 10 then Char.ofNat ('0'.toNat + n) else Char.ofNat ('a'.toNat + (n - 10))

/-- `JSON.stringify` escaping of one string character: `"` and `\`
get a backslash, the control characters with short forms use them, the
remaining control characters become `\u00XX`. -/
def escChar (c : Char) : List Char :=
  if c == '"' then ['\\', '"']
  else if c == '\\' then ['\\', '\\']
  else if c == '\x08' then ['\\', 'b']
  else if c == '\t' then ['\\', 't']
  else if c == '\n' then ['\\', 'n']
  else if c == '\x0c' then ['\\', 'f']
  else if c == '\r' then ['\\', 'r']
  else if c.toNat < 32 then ['\\', 'u', '0', '0', hexDigit (c.toNat / 16), hexDigit (c.toNat % 16)]
  else [c]

/-- Escape every character of a string body. -/
def escBody : List Char → List Char
  | [] => []
  | c :: cs => escChar c ++ escBody cs

/-- A JSON string literal: quote, escaped body, quote. -/
def encodeStrLit (s : String) : List Char :=
  '"' :: (escBody s.data ++ ['"'])

/-- Decimal digit character. -/
def digitChar (n : Nat) : Char := Char.ofNat ('0'.toNat + n)

/-- Decimal digits of a natural number, most significant first
(fuel-structural). -/
def natDigitsAux : Nat → Nat → List Char → List Char
  | 0, _, acc => acc
  | fuel + 1, n, acc =>
    if n < 10 then digitChar n :: acc
    else natDigitsAux fuel (n / 10) (digitChar (n % 10) :: acc)

/-- Decimal digits of a natural number. -/
def natDigits (n : Nat) : List Char := natDigitsAux (n + 1) n []

/-- Integer numeral as `JSON.stringify` prints an integral number. -/
def encodeInt (n : Int) : List Char :=
  if n < 0 then '-' :: natDigits (-n).toNat else natDigits n.toNat

mutual
/-- `JSON.stringify` (no spacing argument) over the modelled grammar. -/
def encodeVal : JVal → List Char
  | .jnull => ['n', 'u', 'l', 'l']
  | .jbool true => ['t', 'r', 'u', 'e']
  | .jbool false => ['f', 'a', 'l', 's', 'e']
  | .jnum n => encodeInt n
  | .jstr s => encodeStrLit s
  | .jarr l => '[' :: (encodeListBody l ++ [']'])
  | .jobj fs => '{' :: (encodeFieldsBody fs ++ ['}'])
/-- Array elements, comma separated. -/
def encodeListBody : JList → List Char
  | .jnil => []
  | .jcons v .jnil => encodeVal v
  | .jcons v (.jcons w tl) => encodeVal v ++ ',' :: encodeListBody (.jcons w tl)
/-- Object members, comma separated, each `"key":value`. -/
def encodeFieldsBody : JFields → List Char
  | .fnil => []
  | .fcons k v .fnil => encodeStrLit k ++ ':' :: encodeVal v
  | .fcons k v (.fcons k2 w tl) =>
    encodeStrLit k ++ ':' :: encodeVal v ++ ',' :: encodeFieldsBody (.fcons k2 w tl)
end

/-- JSON insignificant whitespace. -/
def isWs (c : Char) : Bool := c == ' ' || c == '\t' || c == '\n' || c == '\r'

/-- Skip insignificant whitespace. -/
def skipWs (s : List Char) : List Char := s.dropWhile isWs

/-- Decimal digit test (code points 48 to 57). -/
def isDigit (c : Char) : Bool := 48 ≤ c.toNat && c.toNat ≤ 57

/-- Digit value of a decimal digit character. -/
def digitVal (c : Char) : Nat := c.toNat - '0'.toNat

/-- Consume a maximal run of digits, on an accumulator. -/
def parseDigits : List Char → Nat → Nat × List Char
  | [], acc => (acc, [])
  | c :: cs, acc =>
    if isDigit c then parseDigits cs (acc * 10 + digitVal c) else (acc, c :: cs)

/-- Unsigned JSON integer numeral: `0` alone, or a nonzero leading digit
followed by a digit run. -/
def parseUNum : List Char → Option (Nat × List Char)
  | [] => none
  | c :: cs =>
    if c == '0' then some (0, cs)
    else if isDigit c then some (parseDigits (c :: cs) 0)
    else none

/-- Signed JSON integer numeral. -/
def parseNum (s : List Char) : Option (Int × List Char) :=
  match s with
  | [] => none
  | c :: rest =>
    if c == '-' then (parseUNum rest).map (fun p => (-(p.1 : Int), p.2))
    else (parseUNum (c :: rest)).map (fun p => ((p.1 : Int), p.2))

/-- Hex digit value, if the character is one (decimal digits, then the
lowercase and the uppercase letter ranges). -/
def hexVal (c : Char) : Option Nat :=
  let n := c.toNat
  if 48 ≤ n && n ≤ 57 then some (n - 48)
  else if 97 ≤ n && n ≤ 102 then some (n - 87)
  else if 65 ≤ n && n ≤ 70 then some (n - 55)
  else none

/-- JSON string body after the opening quote: literal characters (no raw
control characters), short escapes, and `\uXXXX` for scalar values (the
model rejects surrogate halves). `acc` holds the prefix reversed. -/
def parseStrAux : List Char → List Char → Option (String × List Char)
  | [], _ => none
  | c :: rest, acc =>
    if c == '"' then some (String.mk acc.reverse, rest)
    else if c == '\\' then
      match rest with
      | [] => none
      | e :: rest1 =>
        if e == '"' then parseStrAux rest1 ('"' :: acc)
        else if e == '\\' then parseStrAux rest1 ('\\' :: acc)
        else if e == '/' then parseStrAux rest1 ('/' :: acc)
        else if e == 'b' then parseStrAux rest1 ('\x08' :: acc)
        else if e == 't' then parseStrAux rest1 ('\t' :: acc)
        else if e == 'n' then parseStrAux rest1 ('\n' :: acc)
        else if e == 'f' then parseStrAux rest1 ('\x0c' :: acc)
        else if e == 'r' then parseStrAux rest1 ('\r' :: acc)
        else if e == 'u' then
          match rest1 with
          | h1 :: h2 :: h3 :: h4 :: rest2 =>
            match hexVal h1, hexVal h2, hexVal h3, hexVal h4 with
            | some a, some b, some c, some d =>
              let n := 4096 * a + 256 * b + 16 * c + d
              if 0xd800 ≤ n && n ≤ 0xdfff then none
              else parseStrAux rest2 (Char.ofNat n :: acc)
            | _, _, _, _ => none
          | _ => none
        else none
    else if c.toNat < 32 then none
    else parseStrAux rest (c :: acc)

mutual
/-- Recursive-descent JSON value parser (fuel-structural), positioned at
optional whitespace before a value; returns the value and the input
right after it. -/
def parseVal : Nat → List Char → Option (JVal × List Char)
  | 0, _ => none
  | fuel + 1, s =>
    match skipWs s with
    | [] => none
    | c :: rest =>
      if c == '{' then
        match skipWs rest with
        | '}' :: rest2 => some (.jobj .fnil, rest2)
        | rest2 => parseFieldsBody fuel rest2
      else if c == '[' then
        match skipWs rest with
        | ']' :: rest2 => some (.jarr .jnil, rest2)
        | rest2 => parseListBody fuel rest2
      else if c == '"' then (parseStrAux rest []).map (fun p => (.jstr p.1, p.2))
      else if c == 't' then
        match rest with
        | 'r' :: 'u' :: 'e' :: rest2 => some (.jbool true, rest2)
        | _ => none
      else if c == 'f' then
        match rest with
        | 'a' :: 'l' :: 's' :: 'e' :: rest2 => some (.jbool false, rest2)
        | _ => none
      else if c == 'n' then
        match rest with
        | 'u' :: 'l' :: 'l' :: rest2 => some (.jnull, rest2)
        | _ => none
      else (parseNum (c :: rest)).map (fun p => (.jnum p.1, p.2))
/-- One or more object members, positioned at the (already
whitespace-skipped) start of a member's key string; consumes the
closing `}`. -/
def parseFieldsBody : Nat → List Char → Option (JVal × List Char)
  | 0, _ => none
  | fuel + 1, s =>
    match s with
    | '"' :: r0 =>
      match parseStrAux r0 [] with
      | some (k, r1) =>
        match skipWs r1 with
        | ':' :: r2 =>
          match parseVal fuel r2 with
          | some (v, r3) =>
            match skipWs r3 with
            | ',' :: r4 =>
              match parseFieldsBody fuel (skipWs r4) with
              | some (.jobj fs, r5) => some (.jobj (.fcons k v fs), r5)
              | _ => none
            | '}' :: r4 => some (.jobj (.fcons k v .fnil), r4)
            | _ => none
          | none => none
        | _ => none
      | none => none
    | _ => none
/-- One or more array elements; consumes the closing `]`. -/
def parseListBody : Nat → List Char → Option (JVal × List Char)
  | 0, _ => none
  | fuel + 1, s =>
    match parseVal fuel s with
    | some (v, r0) =>
      match skipWs r0 with
      | ',' :: r1 =>
        match parseListBody fuel r1 with
        | some (.jarr l, r2) => some (.jarr (.jcons v l), r2)
        | _ => none
      | ']' :: r1 => some (.jarr (.jcons v .jnil), r1)
      | _ => none
    | none => none
end

/-- `JSON.parse` over the modelled grammar: parse one value, allow
trailing whitespace, reject leftovers. -/
def jsonParse (s : String) : Option JVal :=
  match parseVal (s.data.length + 1) s.data with
  | some (v, rest) => if skipWs rest == [] then some v else none
  | none => none

/-- `serialize(value)`: strings pass through unchanged, every other
value goes through `JSON.stringify`. -/
def serialize (v : JVal) : String :=
  match v with
  | .jstr s => s
  | v => String.mk (encodeVal v)

/-- `deserialize(value)`: try `JSON.parse`; on failure return the raw
string unchanged. -/
def deserialize (s : String) : JVal :=
  match jsonParse s with
  | some v => v
  | none => .jstr s

/-- `shouldCompress(data, threshold = 1024)`: UTF-8 byte length strictly
above the threshold.  The default threshold 1024 is applied at the call
sites, which all omit the argument. -/
def shouldCompress (data : String) (threshold : Nat) : Bool :=
  threshold < data.utf8ByteSize

/-! ## Backing store model

The Redis primitives the embedded operations use, on one keyspace:
string records (`set`/`get`/`del`), hash records for metadata
(`hset`/`hgetall`), per-key TTL (`expire`, the `EX` argument of `set`),
batched `del`, and `scan` by glob pattern.  A hash record is modelled
structurally as the metadata the library stores in it: the `compressed`
flag and the `tags` list (the library writes both fields on every
`hset`). -/

/-- The metadata hash record: `{compressed, tags}`. -/
structure MetaRec where
  compressed : Bool
  tags : List String
deriving DecidableEq

/-- A stored value: a string record or a metadata hash record. -/
inductive RVal where
  | str : String → RVal
  | hash : MetaRec → RVal
deriving DecidableEq

/-- One key of the store: value plus optional TTL (in seconds; `none`
means no expiry is set). -/
structure RediEntry where
  key : String
  val : RVal
  ttl : Option Int
deriving DecidableEq

/-- The store: entries, one per live key. -/
abbrev Store := List RediEntry

/-- Lookup of a key's entry (first match). -/
def Store.find? (st : Store) (k : String) : Option RediEntry :=
  List.find? (fun e => e.key == k) st

/-- `GET key`: the string record's payload, absent keys and hash
records give `null`. -/
def rget (st : Store) (k : String) : Option String :=
  match st.find? k with
  | some ⟨_, .str s, _⟩ => some s
  | _ => none

/-- `HGETALL key`: the metadata record; an absent key gives the empty
hash, modelled as `none`. -/
def rhgetall (st : Store) (k : String) : Option MetaRec :=
  match st.find? k with
  | some ⟨_, .hash m, _⟩ => some m
  | _ => none

/-- `SET key value [EX ttl]` (unconditional): replace or append the
entry; without `EX` the key is left with no TTL. -/
def rsetStr : Store → String → String → Option Int → Store
  | [], k, v, t => [⟨k, .str v, t⟩]
  | e :: es, k, v, t =>
    if e.key == k then ⟨k, .str v, t⟩ :: es else e :: rsetStr es k v t

/-- `HSET key {compressed, tags}`: overwrite both fields; an existing
key keeps its TTL, a fresh key starts with none. -/
def rhset : Store → String → MetaRec → Store
  | [], k, m => [⟨k, .hash m, none⟩]
  | e :: es, k, m =>
    if e.key == k then ⟨k, .hash m, e.ttl⟩ :: es else e :: rhset es k m

/-- `EXPIRE key ttl`: set the TTL of an existing key. -/
def rexpire : Store → String → Int → Store
  | [], _, _ => []
  | e :: es, k, t =>
    if e.key == k then ⟨e.key, e.val, some t⟩ :: es else e :: rexpire es k t

/-- `DEL key...`: remove every listed key, returning how many existed. -/
def rdel (st : Store) (ks : List String) : Nat × Store :=
  (st.countP (fun e => ks.contains e.key), st.filter (fun e => !ks.contains e.key))

/-- The keys a full cursor-driven `SCAN ... MATCH pattern` pass
returns: every live key matching the pattern (page boundaries are
immaterial to the final result in the sequential model). -/
def rscan (st : Store) (pat : String) : List String :=
  (st.filter (fun e => globMatch pat e.key)).map (fun e => e.key)

/-! ## Configuration (from the `Cache` constructor) -/

/-- The caller-supplied `CacheConfig` (every field optional); the Redis
connection fields are not part of the state model. -/
structure CacheConfigIn where
  defaultTtl : Option Int
  defaultNamespace : Option String
  enableCompression : Option Bool
  maxMemory : Option Int
  keyPrefix : Option String
  enableWarmup : Option Bool
  warmupInterval : Option Int
deriving DecidableEq

/-- The effective `Required<CacheConfig>` the constructor builds. -/
structure EffConfig where
  defaultTtl : Int
  defaultNamespace : String
  enableCompression : Bool
  maxMemory : Int
  keyPrefix : String
  enableWarmup : Bool
  warmupInterval : Int
deriving DecidableEq

/-- JS `s || d` on a string option. -/
def orTruthyStr (x : Option String) (d : String) : String :=
  match x with
  | some s => if s == "" then d else s
  | none => d

/-- The constructor's defaulting, field by field with `||`. -/
def effectiveConfig (c : CacheConfigIn) : EffConfig where
  defaultTtl := orTruthyInt c.defaultTtl 3600
  defaultNamespace := orTruthyStr c.defaultNamespace "cache"
  enableCompression := orTruthyBool c.enableCompression true
  maxMemory := orTruthyInt c.maxMemory (100 * 1024 * 1024)
  keyPrefix := orTruthyStr c.keyPrefix "frache"
  enableWarmup := orTruthyBool c.enableWarmup true
  warmupInterval := orTruthyInt c.warmupInterval 60000

/-- `if (this.config.enableWarmup) this.startWarmupProcessor()`:
whether the constructor starts the periodic warmup processor. -/
def constructorStartsWarmup (c : CacheConfigIn) : Bool :=
  (effectiveConfig c).enableWarmup

/-! ## Core cache operations -/

/-- Cache statistics counters. -/
structure Stats where
  hits : Nat
  misses : Nat
  sets : Nat
  deletes : Nat
  errors : Nat
deriving DecidableEq

/-- Warmup lifecycle status carried in a `warmup` event. -/
inductive WStatus where
  | registered : WStatus
  | unregistered : WStatus
  | queued : WStatus
  | started : WStatus
  | completed : WStatus
  | failed : String → WStatus
deriving DecidableEq

/-- Emitted cache events (the payload fields the proofs observe). -/
inductive CEvent where
  | setEv : String → String → CEvent
  | hitEv : String → String → CEvent
  | missEv : String → String → CEvent
  | deleteEv : String → String → CEvent
  | clearEv : Option String → CEvent
  | errorEv : Option String → CEvent
  | warmupEv : String → WStatus → CEvent
deriving DecidableEq

/-- The mutable state a core cache operation touches: the backing
store, the statistics counters, and the (append-only) event log. -/
structure CacheState where
  store : Store
  stats : Stats
  events : List CEvent
deriving DecidableEq

/-- The external gzip collaborator: `compress`/`decompress` as opaque
string transformations (the round-trip contract is a hypothesis of the
theorems that need it). -/
structure Codec where
  comp : String → String
  decomp : String → String

/-- `SetOptions`: the fields `set` reads. -/
structure SetOptions where
  ttl : Option Int
  nsOpt : Option String
  tags : Option (List String)
  compressOpt : Option Bool
  nx : Bool
  xx : Bool
deriving DecidableEq

/-- `GetOptions`: the fields `get` reads. -/
structure GetOptions where
  ttl : Option Int
  nsOpt : Option String
  defaultValue : Option JVal
  refreshTtl : Bool
deriving DecidableEq

/-- `DelOptions`: the fields `del` reads. -/
structure DelOptions where
  nsOpt : Option String
  pattern : Option String
deriving DecidableEq

/-- Plain `SET` options: everything absent. -/
def SetOptions.plain : SetOptions := ⟨none, none, none, none, false, false⟩

/-- Plain `GET` options. -/
def GetOptions.plain : GetOptions := ⟨none, none, none, false⟩

/-- The conditional primary write of `set`: `EX ttl` only when
`ttl > 0`, `NX`/`XX` per the options; `null` (`none`) is the store's
rejection of a failed conditional write. -/
def rsetCond (st : Store) (k v : String) (ttl : Int) (nx xx : Bool) : Option Store :=
  let ttlArg : Option Int := if 0 < ttl then some ttl else none
  if nx then
    match st.find? k with
    | some _ => none
    | none => some (rsetStr st k v ttlArg)
  else if xx then
    match st.find? k with
    | some _ => some (rsetStr st k v ttlArg)
    | none => none
  else some (rsetStr st k v ttlArg)

namespace Cache

/-- `cache.set(key, value, options)`.  Returns the JS boolean result
(`Except.error` models a thrown error) together with the state after
the call; the catch-block bookkeeping (error counter plus `error`
event, then rethrow) is folded into the validation branch, the only
failure the model's total store can produce. -/
def set (cfg : EffConfig) (cd : Codec) (st : CacheState) (key : String) (value : JVal)
    (o : SetOptions) : Except String Bool × CacheState :=
  match validateKey key with
  | .error e =>
    (.error e, { st with stats := { st.stats with errors := st.stats.errors + 1 },
                         events := st.events ++ [.errorEv (some key)] })
  | .ok _ =>
    let ns := o.nsOpt.getD cfg.defaultNamespace
    let cacheKey := generateCacheKey key (some ns) (some cfg.keyPrefix)
    let ttl := orTruthyInt (parseTtl o.ttl) cfg.defaultTtl
    let serializedValue := serialize value
    let isCompressed := (o.compressOpt.getD cfg.enableCompression) && shouldCompress serializedValue 1024
    let finalValue := if isCompressed then cd.comp serializedValue else serializedValue
    match rsetCond st.store cacheKey finalValue ttl o.nx o.xx with
    | none => (.ok false, st)
    | some store1 =>
      let metaKey := cacheKey ++ ":meta"
      let store2 :=
        if isCompressed || o.tags.isSome then
          let withMeta := rhset store1 metaKey ⟨isCompressed, o.tags.getD []⟩
          if 0 < ttl then rexpire withMeta metaKey ttl else withMeta
        else store1
      (.ok true,
        { store := store2,
          stats := { st.stats with sets := st.stats.sets + 1 },
          events := st.events ++ [.setEv key ns] })

/-- `cache.get(key, options)`.  Returns the value (`none` is JS `null`)
and the state after the call. -/
def get (cfg : EffConfig) (cd : Codec) (st : CacheState) (key : String)
    (o : GetOptions) : Except String (Option JVal) × CacheState :=
  match validateKey key with
  | .error e =>
    (.error e, { st with stats := { st.stats with errors := st.stats.errors + 1 },
                         events := st.events ++ [.errorEv (some key)] })
  | .ok _ =>
    let ns := o.nsOpt.getD cfg.defaultNamespace
    let cacheKey := generateCacheKey key (some ns) (some cfg.keyPrefix)
    let metaKey := cacheKey ++ ":meta"
    let value := rget st.store cacheKey
    let metadata := rhgetall st.store metaKey
    match value with
    | none =>
      (.ok o.defaultValue,
        { st with stats := { st.stats with misses := st.stats.misses + 1 },
                  events := st.events ++ [.missEv key ns] })
    | some raw =>
      let store1 :=
        match o.ttl with
        | some t0 =>
          if o.refreshTtl && !(t0 == 0) then
            match parseTtl (some t0) with
            | some t =>
              if 0 < t then
                let s1 := rexpire st.store cacheKey t
                if metadata.isSome then rexpire s1 metaKey t else s1
              else st.store
            | none => st.store
          else st.store
        | none => st.store
      let finalValue :=
        match metadata with
        | some m => if m.compressed then cd.decomp raw else raw
        | none => raw
      let deserializedValue := deserialize finalValue
      (.ok (some deserializedValue),
        { store := store1,
          stats := { st.stats with hits := st.stats.hits + 1 },
          events := st.events ++ [.hitEv key ns] })

/-- `deleteByPattern(pattern, namespace)`: full scan, then one batched
delete of the found keys together with their metadata keys; adds the
deleted count to the `deletes` counter and emits no event. -/
def deleteByPattern (cfg : EffConfig) (st : CacheState) (pat ns : String) :
    Nat × CacheState :=
  let scanPattern := generateScanPattern pat (some ns) (some cfg.keyPrefix)
  let keys := rscan st.store scanPattern
  if keys == [] then (0, st)
  else
    let metaKeys := keys.map (fun k => k ++ ":meta")
    let allKeys := keys ++ metaKeys
    let (deleted, store1) := rdel st.store allKeys
    (deleted,
      { st with store := store1,
                stats := { st.stats with deletes := st.stats.deletes + deleted } })

/-- `cache.del(key, options)`. -/
def del (cfg : EffConfig) (st : CacheState) (key : String) (o : DelOptions) :
    Except String Nat × CacheState :=
  match validateKey key with
  | .error e =>
    (.error e, { st with stats := { st.stats with errors := st.stats.errors + 1 },
                         events := st.events ++ [.errorEv (some key)] })
  | .ok _ =>
    let ns := o.nsOpt.getD cfg.defaultNamespace
    match o.pattern with
    | some pat =>
      let (n, st1) := deleteByPattern cfg st pat ns
      (.ok n, st1)
    | none =>
      let cacheKey := generateCacheKey key (some ns) (some cfg.keyPrefix)
      let metaKey := cacheKey ++ ":meta"
      let (deleted, store1) := rdel st.store [cacheKey, metaKey]
      if 0 < deleted then
        (.ok deleted,
          { store := store1,
            stats := { st.stats with deletes := st.stats.deletes + 1 },
            events := st.events ++ [.deleteEv key ns] })
      else (.ok deleted, { st with store := store1 })

/-- `clearByTags(tags)`: scan every metadata key under the default
namespace pattern; for each whose tag list meets the requested tags,
collect the key obtained by dropping the first occurrence of `":meta"`
together with the metadata key itself; then one batched delete.
Touches neither counters nor events. -/
def clearByTags (cfg : EffConfig) (st : Store) (tags : List String) : Nat × Store :=
  let metaPattern := generateScanPattern "*:meta" (some cfg.defaultNamespace) (some cfg.keyPrefix)
  let scanned := rscan st metaPattern
  let keys := scanned.foldl
    (fun acc metaKey =>
      let keyTags := match rhgetall st metaKey with
        | some m => m.tags
        | none => []
      if tags.any (fun t => keyTags.contains t) then
        acc ++ [String.mk (replaceFirst metaKey.data ":meta".data []), metaKey]
      else acc)
    []
  if keys == [] then (0, st)
  else rdel st keys

end Cache

/-! ## Warmup scheduler

A task's user-supplied asynchronous routine is external code; it enters
the model as the settled outcome of the race `executeWarmupTask` builds:
`result` is what the routine's promise settles with, and
`exceedsTimeout` says whether the declared timeout timer fires before
the routine settles.  The `retry`/`retryAttempts`/`retryDelay` fields
only feed a log line in the source and are omitted. -/

instance : DecidableEq (Except String Unit) := fun a b =>
  match a, b with
  | .ok (), .ok () => .isTrue rfl
  | .ok (), .error _ => .isFalse (fun h => Except.noConfusion h)
  | .error _, .ok () => .isFalse (fun h => Except.noConfusion h)
  | .error x, .error y =>
    if h : x = y then .isTrue (by rw [h])
    else .isFalse (fun hc => h (Except.error.inj hc))

/-- A registered warmup task. -/
structure WarmupTask where
  id : String
  name : String
  priority : Option Int
  timeout : Option Nat
  result : Except String Unit
  exceedsTimeout : Bool
deriving DecidableEq

/-- Priority with the source's `|| 0` default. -/
def prioOf (t : WarmupTask) : Int := t.priority.getD 0

/-- The outcome of `Promise.race([task.execute(), timer])`: with a
declared timeout that fires first, a `Task timeout` rejection;
otherwise the routine's own outcome. -/
def raceOutcome (t : WarmupTask) : Except String Unit :=
  match t.timeout with
  | some _ => if t.exceedsTimeout then .error "Task timeout" else t.result
  | none => t.result

/-- `executeWarmupTask(task)`: emit `started`; on success emit
`completed`, on failure (including timeout) emit `failed` — and in
both cases return normally: the `catch` block swallows the error. -/
def executeWarmupTask (t : WarmupTask) : List CEvent :=
  match raceOutcome t with
  | .ok _ => [.warmupEv t.id .started, .warmupEv t.id .completed]
  | .error e => [.warmupEv t.id .started, .warmupEv t.id (.failed e)]

/-- Scheduler state: the task registry, the pending queue, and the
reentrancy flag of the periodic drain. -/
structure Scheduler where
  warmupTasks : List (String × WarmupTask)
  warmupQueue : List WarmupTask
  isProcessingWarmup : Bool
deriving DecidableEq

/-- Registry lookup (`this.warmupTasks.get(taskId)`). -/
def lookupTask (m : List (String × WarmupTask)) (id : String) : Option WarmupTask :=
  (List.find? (fun p => p.1 == id) m).map (fun p => p.2)

/-- `QueueWarmupOptions`: the priority override. -/
structure QueueWarmupOptions where
  priority : Option Int
deriving DecidableEq

/-- The queued copy of a task with the override applied
(`{...task, ...(options.priority !== undefined && {priority})}`). -/
def applyOverride (t : WarmupTask) (o : QueueWarmupOptions) : WarmupTask :=
  match o.priority with
  | some p => { t with priority := some p }
  | none => t

namespace Cache

/-- `registerWarmupTask(task)`: insert (overwriting an existing id) and
emit the `registered` event. -/
def registerWarmupTask (s : Scheduler) (t : WarmupTask) : Scheduler × List CEvent :=
  let m := if (s.warmupTasks.find? (fun p => p.1 == t.id)).isSome then
      s.warmupTasks.map (fun p => if p.1 == t.id then (t.id, t) else p)
    else s.warmupTasks ++ [(t.id, t)]
  ({ s with warmupTasks := m }, [.warmupEv t.id .registered])

/-- `queueWarmupTask(taskId, options)`: `TaskNotFoundError` for an
unknown id; `false` without enqueueing when already queued; otherwise
append the override-applied copy, emit `queued`, return `true`. -/
def queueWarmupTask (s : Scheduler) (taskId : String) (o : QueueWarmupOptions) :
    Except String Bool × Scheduler × List CEvent :=
  match lookupTask s.warmupTasks taskId with
  | none => (.error ("Warmup task with id " ++ taskId ++ " not found"), s, [])
  | some task =>
    if s.warmupQueue.any (fun t => t.id == taskId) then (.ok false, s, [])
    else
      (.ok true,
        { s with warmupQueue := s.warmupQueue ++ [applyOverride task o] },
        [.warmupEv taskId .queued])

/-- `runWarmupTask(taskId)`: `TaskNotFoundError` for an unknown id;
otherwise execute immediately, returning the events the execution
emits — `executeWarmupTask` never rethrows, so a direct run settles
successfully even when the task fails. -/
def runWarmupTask (s : Scheduler) (taskId : String) : Except String (List CEvent) :=
  match lookupTask s.warmupTasks taskId with
  | none => .error ("Warmup task with id " ++ taskId ++ " not found")
  | some task => .ok (executeWarmupTask task)

end Cache

/-- Stable insertion step of the queue sort: descending by priority,
equal priorities keep their relative order (JS `Array.prototype.sort`
with comparator `(a, b) => (b.priority || 0) - (a.priority || 0)`). -/
def insertDesc (t : WarmupTask) : List WarmupTask → List WarmupTask
  | [] => [t]
  | u :: us => if prioOf u ≤ prioOf t then t :: u :: us else u :: insertDesc t us

/-- Stable sort of the pending queue, descending by priority. -/
def sortDescPriority : List WarmupTask → List WarmupTask
  | [] => []
  | t :: ts => insertDesc t (sortDescPriority ts)

namespace Cache

/-- `processWarmupQueue()`, the periodic drain step: a no-op while a
drain is in flight or the queue is empty; otherwise sort the queue
descending by priority, `shift` exactly the first task and execute it
(its events are the second component); the `finally` block restores the
reentrancy flag, so the returned state has it as found. -/
def processWarmupQueue (s : Scheduler) : Scheduler × Option (WarmupTask × List CEvent) :=
  if s.isProcessingWarmup || s.warmupQueue.isEmpty then (s, none)
  else
    match sortDescPriority s.warmupQueue with
    | [] => (s, none)
    | t :: rest =>
      ({ s with warmupQueue := rest }, some (t, executeWarmupTask t))

end Cache

/-- Whether the input starts with a decimal digit (the only case in
which a parsed numeral would swallow following characters). -/
def digitStart : List Char → Bool
  | [] => false
  | c :: _ => isDigit c

mutual
/-- Parser fuel sufficient for a value. -/
def needVal : JVal → Nat
  | .jnull => 1
  | .jbool _ => 1
  | .jnum _ => 1
  | .jstr _ => 1
  | .jarr .jnil => 1
  | .jarr (.jcons v l) => needList (.jcons v l) + 1
  | .jobj .fnil => 1
  | .jobj (.fcons k v fs) => needFields (.fcons k v fs) + 1
/-- Parser fuel sufficient for array elements. -/
def needList : JList → Nat
  | .jnil => 1
  | .jcons v l => max (needVal v) (needList l) + 1
/-- Parser fuel sufficient for object members. -/
def needFields : JFields → Nat
  | .fnil => 1
  | .fcons _ v fs => max (needVal v) (needFields fs) + 1
end

/-- The effective configuration produced by an empty caller config
(every constructor default). -/
def cfgDefault : EffConfig := ⟨3600, "cache", true, 104857600, "frache", true, 60000⟩

/-- The identity codec: a degenerate but contract-satisfying stand-in
for the external compressor in concrete witnesses. -/
def idCodec : Codec := ⟨fun s => s, fun s => s⟩

/-- In a registry built by `registerWarmupTask`, the map key is the
task's id. -/
def RegistryWF (m : List (String × WarmupTask)) : Prop :=
  ∀ p ∈ m, p.2.id = p.1

/-- A concrete registered task for the C5 witness. -/
def wTask : WarmupTask := ⟨"w", "W", some 1, none, .ok (), false⟩

/-! ## Store lemmas -/

/-- TTL currently attached to a key. -/
def ttlAt (st : Store) (k : String) : Option Int :=
  match st.find? k with
  | some e => e.ttl
  | none => none

theorem find?_rsetStr_self (st : Store) (k v : String) (t : Option Int) :
    (rsetStr st k v t).find? k = some ⟨k, .str v, t⟩ := by
  induction st with
  | nil => simp [rsetStr, Store.find?]
  | cons e es ih =>
    by_cases h : e.key = k
    · simp [rsetStr, h, Store.find?]
    · have hb : (e.key == k) = false := beq_eq_false_iff_ne.mpr h
      simpa [rsetStr, hb, Store.find?, List.find?_cons] using ih

theorem find?_rsetStr_ne (st : Store) (k v : String) (t : Option Int) (k' : String)
    (h : k' ≠ k) : (rsetStr st k v t).find? k' = st.find? k' := by
  induction st with
  | nil => simp [rsetStr, Store.find?, beq_eq_false_iff_ne.mpr (Ne.symm h)]
  | cons e es ih =>
    by_cases he : e.key = k
    · subst he
      simp [rsetStr, Store.find?, List.find?_cons, beq_eq_false_iff_ne.mpr (Ne.symm h)]
    · have hb : (e.key == k) = false := beq_eq_false_iff_ne.mpr he
      cases hpe : (e.key == k') <;>
        simpa [rsetStr, hb, Store.find?, List.find?_cons, hpe] using ih

theorem find?_rhset_self (st : Store) (k : String) (m : MetaRec) :
    (rhset st k m).find? k = some ⟨k, .hash m, ttlAt st k⟩ := by
  induction st with
  | nil => simp [rhset, Store.find?, ttlAt]
  | cons e es ih =>
    by_cases h : e.key = k
    · simp [rhset, h, Store.find?, ttlAt, List.find?_cons]
    · have hb : (e.key == k) = false := beq_eq_false_iff_ne.mpr h
      simpa [rhset, hb, Store.find?, List.find?_cons, ttlAt] using ih

theorem find?_rhset_ne (st : Store) (k : String) (m : MetaRec) (k' : String)
    (h : k' ≠ k) : (rhset st k m).find? k' = st.find? k' := by
  induction st with
  | nil => simp [rhset, Store.find?, beq_eq_false_iff_ne.mpr (Ne.symm h)]
  | cons e es ih =>
    by_cases he : e.key = k
    · subst he
      simp [rhset, Store.find?, List.find?_cons, beq_eq_false_iff_ne.mpr (Ne.symm h)]
    · have hb : (e.key == k) = false := beq_eq_false_iff_ne.mpr he
      cases hpe : (e.key == k') <;>
        simpa [rhset, hb, Store.find?, List.find?_cons, hpe] using ih

theorem find?_rexpire_self (st : Store) (k : String) (t : Int) :
    (rexpire st k t).find? k = (st.find? k).map (fun e => ⟨e.key, e.val, some t⟩) := by
  induction st with
  | nil => simp [rexpire, Store.find?]
  | cons e es ih =>
    by_cases h : e.key = k
    · simp [rexpire, h, Store.find?, List.find?_cons]
    · have hb : (e.key == k) = false := beq_eq_false_iff_ne.mpr h
      simpa [rexpire, hb, Store.find?, List.find?_cons] using ih

theorem find?_rexpire_ne (st : Store) (k : String) (t : Int) (k' : String)
    (h : k' ≠ k) : (rexpire st k t).find? k' = st.find? k' := by
  induction st with
  | nil => simp [rexpire, Store.find?]
  | cons e es ih =>
    by_cases he : e.key = k
    · subst he
      simp [rexpire, Store.find?, List.find?_cons, beq_eq_false_iff_ne.mpr (Ne.symm h)]
    · have hb : (e.key == k) = false := beq_eq_false_iff_ne.mpr he
      cases hpe : (e.key == k') <;>
        simpa [rexpire, hb, Store.find?, List.find?_cons, hpe] using ih

/-- `expire` never changes a key's value, so `hgetall` is unaffected. -/
theorem rhgetall_rexpire (st : Store) (k : String) (t : Int) (k' : String) :
    rhgetall (rexpire st k t) k' = rhgetall st k' := by
  by_cases h : k' = k
  · subst h
    simp only [rhgetall, find?_rexpire_self]
    cases hf : st.find? k' with
    | none => rfl
    | some e =>
      obtain ⟨ek, ev, et⟩ := e
      cases ev <;> rfl
  · simp [rhgetall, find?_rexpire_ne st k t k' h]

/-- A key is never equal to its own metadata key. -/
theorem ne_append_meta (s : String) : s ≠ s ++ ":meta" := by
  intro h
  have h2 := congrArg String.length h
  rw [String.length_append] at h2
  have h5 : (":meta" : String).length = 5 := rfl
  omega

theorem meta_append_ne (s : String) : s ++ ":meta" ≠ s :=
  fun h => ne_append_meta s h.symm

/-! ## Shared concrete fixtures -/

/-! ## Configuration defaulting -/

theorem orTruthyBool_true (x : Option Bool) : orTruthyBool x true = true := by
  cases x with
  | none => rfl
  | some b => cases b <;> rfl

theorem orTruthyInt_ne_zero (x : Option Int) (d : Int) (hd : d ≠ 0) :
    orTruthyInt x d ≠ 0 := by
  cases x with
  | none => exact hd
  | some v =>
    by_cases h : v = 0
    · simp [orTruthyInt, h, hd]
    · simp [orTruthyInt, h]

/-- C10 counterexample: an explicitly negative `defaultTtl` survives the
`||` defaulting, so the effective configuration does not always satisfy
`defaultTtl > 0`. -/
theorem effectiveConfig_negative_ttl_kept :
    (effectiveConfig ⟨some (-1), none, none, none, none, none, none⟩).defaultTtl = -1 ∧
    ¬(0 < (effectiveConfig ⟨some (-1), none, none, none, none, none, none⟩).defaultTtl) := by
  exact ⟨rfl, by decide⟩

/-- C10 (amended): the constructor applies its defaults with JS `||`
truthiness, so the effective `enableCompression` and `enableWarmup` are
always `true` (even when the caller passes `false`), the warmup
processor is always started, and the effective `defaultTtl` is never
`0`: an explicit `0` (like an omitted field) is silently replaced by
`3600`; only the sign of an explicitly negative TTL survives. -/
theorem effectiveConfig_truthiness_defaults (c : CacheConfigIn) :
    (effectiveConfig c).enableCompression = true ∧
    (effectiveConfig c).enableWarmup = true ∧
    constructorStartsWarmup c = true ∧
    (effectiveConfig c).defaultTtl ≠ 0 ∧
    ((c.defaultTtl = some 0 ∨ c.defaultTtl = none) → (effectiveConfig c).defaultTtl = 3600) ∧
    (c.enableCompression = some false → (effectiveConfig c).enableCompression = true) ∧
    (c.enableWarmup = some false → (effectiveConfig c).enableWarmup = true) := by
  refine ⟨orTruthyBool_true _, orTruthyBool_true _, ?_, ?_, ?_, fun _ => orTruthyBool_true _,
    fun _ => orTruthyBool_true _⟩
  · exact orTruthyBool_true _
  · exact orTruthyInt_ne_zero _ _ (by decide)
  · rintro (h | h) <;> simp [effectiveConfig, h, orTruthyInt]

/-- Witness for the amended C10 theorem at a concrete config that passes
`defaultTtl: 0`, `enableCompression: false`, `enableWarmup: false`. -/
theorem effectiveConfig_truthiness_defaults_witness :
    (effectiveConfig ⟨some 0, none, some false, none, none, some false, none⟩).enableCompression = true ∧
    (effectiveConfig ⟨some 0, none, some false, none, none, some false, none⟩).enableWarmup = true ∧
    (effectiveConfig ⟨some 0, none, some false, none, none, some false, none⟩).defaultTtl = 3600 :=
  ⟨(effectiveConfig_truthiness_defaults ⟨some 0, none, some false, none, none, some false, none⟩).1,
   (effectiveConfig_truthiness_defaults ⟨some 0, none, some false, none, none, some false, none⟩).2.1,
   (effectiveConfig_truthiness_defaults ⟨some 0, none, some false, none, none, some false, none⟩).2.2.2.2.1
     (Or.inl rfl)⟩

/-! ## Warmup: direct run of a failing task (C3) -/

/-- C3 counterexample: a direct `runWarmupTask` of a task whose routine
rejects settles successfully (`Except.ok`) after emitting the `failed`
event — the failure is not re-raised to the caller. -/
theorem runWarmupTask_swallows_failure_counterexample :
    Cache.runWarmupTask ⟨[("t1", ⟨"t1", "T", none, none, .error "boom", false⟩)], [], false⟩ "t1"
      = .ok [.warmupEv "t1" .started, .warmupEv "t1" (.failed "boom")] ∧
    (Cache.runWarmupTask ⟨[("t1", ⟨"t1", "T", none, none, .error "boom", false⟩)], [], false⟩
        "t1").isOk = true :=
  ⟨rfl, rfl⟩

/-- C3 (amended): for every registered task whose execution fails
(rejection or declared-timeout expiry), a direct `runWarmupTask` emits
the `started` and `failed` lifecycle events and settles successfully:
the `catch` inside `executeWarmupTask` swallows the error for direct
runs exactly as for drain-triggered runs. -/
theorem runWarmupTask_reports_failure_without_rethrow (s : Scheduler) (id e : String)
    (t : WarmupTask) (ht : lookupTask s.warmupTasks id = some t)
    (hfail : raceOutcome t = .error e) :
    Cache.runWarmupTask s id = .ok [.warmupEv t.id .started, .warmupEv t.id (.failed e)] := by
  unfold Cache.runWarmupTask
  rw [ht]
  simp [executeWarmupTask, hfail]

/-- Witness for the amended C3 theorem: a task with a declared timeout
whose routine outlives it fails with `Task timeout`, and the direct run
still settles with `ok`. -/
theorem runWarmupTask_reports_failure_without_rethrow_witness :
    Cache.runWarmupTask ⟨[("t2", ⟨"t2", "T", none, some 50, .ok (), true⟩)], [], false⟩ "t2"
      = .ok [.warmupEv "t2" .started, .warmupEv "t2" (.failed "Task timeout")] :=
  runWarmupTask_reports_failure_without_rethrow
    ⟨[("t2", ⟨"t2", "T", none, some 50, .ok (), true⟩)], [], false⟩ "t2" "Task timeout"
    ⟨"t2", "T", none, some 50, .ok (), true⟩ rfl rfl

/-! ## Tag invalidation on a `meta`-prefixed logical key (C1) -/

/-- C1: `clearByTags` recovers the primary key from a scanned metadata
key with `metaKey.replace(':meta', '')`, which deletes the FIRST
occurrence of `":meta"`.  For the valid logical key `"meta1"` the
metadata key is `"frache:cache:meta1:meta"`, whose first `":meta"`
occurrence sits inside the logical key, so the computed "primary" key
is the mangled `"frache:cache1:meta"`: the batch never contains the
real primary key, only the metadata record is deleted (count 1), and
the tagged primary entry survives the invalidation. -/
theorem clearByTags_mangles_meta_prefixed_key :
    Cache.clearByTags cfgDefault
        [⟨"frache:cache:meta1", .str "v", some 3600⟩,
         ⟨"frache:cache:meta1:meta", .hash ⟨false, ["t"]⟩, some 3600⟩] ["t"]
      = (1, [⟨"frache:cache:meta1", .str "v", some 3600⟩]) := by
  rfl

/-! ## `del` without a pattern (C6) -/

/-- C6 counterexample: deleting a key that has a metadata record removes
two store keys, but the `deletes` counter is incremented by `1`
(`this.stats.deletes++`), not by the number of store keys removed. -/
theorem del_counter_increment_counterexample :
    (Cache.del cfgDefault
        ⟨[⟨"frache:cache:k", .str "v", some 3600⟩,
          ⟨"frache:cache:k:meta", .hash ⟨false, ["t"]⟩, some 3600⟩],
         ⟨0, 0, 0, 0, 0⟩, []⟩ "k" ⟨none, none⟩).1 = .ok 2 ∧
    (Cache.del cfgDefault
        ⟨[⟨"frache:cache:k", .str "v", some 3600⟩,
          ⟨"frache:cache:k:meta", .hash ⟨false, ["t"]⟩, some 3600⟩],
         ⟨0, 0, 0, 0, 0⟩, []⟩ "k" ⟨none, none⟩).2.stats.deletes = 1 :=
  ⟨rfl, rfl⟩

/-- C6 (amended): `del` without a pattern deletes the primary key and
its metadata key together in one batched delete and returns the number
of store keys actually removed; the `deletes` counter is incremented by
ONE (not by the removed count) exactly when at least one key was
removed, and the `delete` event is emitted exactly in that case; when
zero keys are removed neither the counters nor the event log change. -/
theorem del_no_pattern_contract (cfg : EffConfig) (st : CacheState) (key : String)
    (o : DelOptions) (hp : o.pattern = none) (hv : validateKey key = .ok ()) :
    (Cache.del cfg st key o).1 =
      .ok (st.store.countP (fun e =>
        [generateCacheKey key (some (o.nsOpt.getD cfg.defaultNamespace)) (some cfg.keyPrefix),
         generateCacheKey key (some (o.nsOpt.getD cfg.defaultNamespace)) (some cfg.keyPrefix)
           ++ ":meta"].contains e.key)) ∧
    (Cache.del cfg st key o).2.store =
      st.store.filter (fun e =>
        !([generateCacheKey key (some (o.nsOpt.getD cfg.defaultNamespace)) (some cfg.keyPrefix),
           generateCacheKey key (some (o.nsOpt.getD cfg.defaultNamespace)) (some cfg.keyPrefix)
             ++ ":meta"].contains e.key)) ∧
    (0 < st.store.countP (fun e =>
        [generateCacheKey key (some (o.nsOpt.getD cfg.defaultNamespace)) (some cfg.keyPrefix),
         generateCacheKey key (some (o.nsOpt.getD cfg.defaultNamespace)) (some cfg.keyPrefix)
           ++ ":meta"].contains e.key) →
      (Cache.del cfg st key o).2.stats.deletes = st.stats.deletes + 1 ∧
      (Cache.del cfg st key o).2.events =
        st.events ++ [.deleteEv key (o.nsOpt.getD cfg.defaultNamespace)]) ∧
    (st.store.countP (fun e =>
        [generateCacheKey key (some (o.nsOpt.getD cfg.defaultNamespace)) (some cfg.keyPrefix),
         generateCacheKey key (some (o.nsOpt.getD cfg.defaultNamespace)) (some cfg.keyPrefix)
           ++ ":meta"].contains e.key) = 0 →
      (Cache.del cfg st key o).2.stats = st.stats ∧
      (Cache.del cfg st key o).2.events = st.events) := by
  simp only [Cache.del, hv, hp, rdel]
  set n := st.store.countP (fun e =>
    [generateCacheKey key (some (o.nsOpt.getD cfg.defaultNamespace)) (some cfg.keyPrefix),
     generateCacheKey key (some (o.nsOpt.getD cfg.defaultNamespace)) (some cfg.keyPrefix)
       ++ ":meta"].contains e.key) with hn
  by_cases hpos : 0 < n
  · simp [hpos, Nat.pos_iff_ne_zero.mp hpos]
  · have hz : n = 0 := Nat.eq_zero_of_not_pos hpos
    simp [hpos, hz]

/-- Witness for the amended C6 theorem on a two-entry store (primary
plus metadata): count 2, counter goes up by one, event emitted. -/
theorem del_no_pattern_contract_witness :
    (Cache.del cfgDefault
        ⟨[⟨"frache:cache:k", .str "v", some 3600⟩,
          ⟨"frache:cache:k:meta", .hash ⟨false, ["t"]⟩, some 3600⟩],
         ⟨0, 0, 0, 5, 0⟩, []⟩ "k" ⟨none, none⟩).1 = .ok 2 ∧
    (Cache.del cfgDefault
        ⟨[⟨"frache:cache:k", .str "v", some 3600⟩,
          ⟨"frache:cache:k:meta", .hash ⟨false, ["t"]⟩, some 3600⟩],
         ⟨0, 0, 0, 5, 0⟩, []⟩ "k" ⟨none, none⟩).2.stats.deletes = 5 + 1 := by
  have h := del_no_pattern_contract cfgDefault
    ⟨[⟨"frache:cache:k", .str "v", some 3600⟩,
      ⟨"frache:cache:k:meta", .hash ⟨false, ["t"]⟩, some 3600⟩],
     ⟨0, 0, 0, 5, 0⟩, []⟩ "k" ⟨none, none⟩ rfl rfl
  exact ⟨h.1, (h.2.2.1 (by decide)).1⟩

/-! ## Warmup queue ordering (C2) -/

theorem insertDesc_perm (t : WarmupTask) (l : List WarmupTask) :
    (insertDesc t l).Perm (t :: l) := by
  induction l with
  | nil => exact List.Perm.refl _
  | cons u us ih =>
    by_cases h : prioOf u ≤ prioOf t
    · simp [insertDesc, h]
    · simp only [insertDesc, if_neg h]
      exact (ih.cons u).trans (List.Perm.swap t u us)

theorem sortDescPriority_perm (l : List WarmupTask) : (sortDescPriority l).Perm l := by
  induction l with
  | nil => exact List.Perm.refl _
  | cons t ts ih => exact (insertDesc_perm t _).trans (ih.cons t)

theorem insertDesc_pairwise (t : WarmupTask) (l : List WarmupTask)
    (h : l.Pairwise (fun a b => prioOf b ≤ prioOf a)) :
    (insertDesc t l).Pairwise (fun a b => prioOf b ≤ prioOf a) := by
  induction l with
  | nil => simp [insertDesc]
  | cons u us ih =>
    rcases List.pairwise_cons.mp h with ⟨hu, hus⟩
    by_cases hle : prioOf u ≤ prioOf t
    · simp only [insertDesc, if_pos hle]
      refine List.pairwise_cons.mpr ⟨?_, h⟩
      intro b hb
      rcases List.mem_cons.mp hb with hb | hb
      · exact hb ▸ hle
      · exact (hu b hb).trans hle
    · simp only [insertDesc, if_neg hle]
      refine List.pairwise_cons.mpr ⟨?_, ih hus⟩
      intro b hb
      rcases List.mem_cons.mp ((insertDesc_perm t us).mem_iff.mp hb) with hb | hb
      · exact hb ▸ le_of_lt (lt_of_not_le hle)
      · exact hu b hb

theorem sortDescPriority_pairwise (l : List WarmupTask) :
    (sortDescPriority l).Pairwise (fun a b => prioOf b ≤ prioOf a) := by
  induction l with
  | nil => simp [sortDescPriority]
  | cons t ts ih => exact insertDesc_pairwise t _ ih

/-- C2: one drain step is a no-op while a drain is in flight or when
the queue is empty; otherwise it removes exactly one maximal-priority
task from the queue (priority defaulting to `0`), executes only it, and
every other queued task stays queued (the remaining queue is a
permutation of the original minus the executed task); at most one task
body is started per invocation by construction of the result. -/
theorem processWarmupQueue_drain (s : Scheduler) :
    (s.isProcessingWarmup = true → Cache.processWarmupQueue s = (s, none)) ∧
    (s.warmupQueue = [] → Cache.processWarmupQueue s = (s, none)) ∧
    (s.isProcessingWarmup = false → s.warmupQueue ≠ [] →
      ∃ t rest,
        Cache.processWarmupQueue s =
          ({ s with warmupQueue := rest }, some (t, executeWarmupTask t)) ∧
        t ∈ s.warmupQueue ∧
        (∀ u ∈ s.warmupQueue, prioOf u ≤ prioOf t) ∧
        s.warmupQueue.Perm (t :: rest)) := by
  refine ⟨?_, ?_, ?_⟩
  · intro h
    simp [Cache.processWarmupQueue, h]
  · intro h
    simp [Cache.processWarmupQueue, h]
  · intro hflag hne
    have hsort := sortDescPriority_perm s.warmupQueue
    have hpair := sortDescPriority_pairwise s.warmupQueue
    cases hq : sortDescPriority s.warmupQueue with
    | nil =>
      rw [hq] at hsort
      exact absurd hsort.symm.eq_nil hne
    | cons t rest =>
      rw [hq] at hsort hpair
      have hie : s.warmupQueue.isEmpty = false := by
        cases hqq : s.warmupQueue with
        | nil => exact absurd hqq hne
        | cons a as => rfl
      refine ⟨t, rest, ?_, ?_, ?_, hsort.symm⟩
      · simp [Cache.processWarmupQueue, hflag, hie, hq]
      · exact hsort.mem_iff.mp (List.mem_cons_self t rest)
      · intro u hu
        rcases List.mem_cons.mp (hsort.mem_iff.mpr hu) with h | h
        · exact h ▸ le_refl _
        · exact (List.pairwise_cons.mp hpair).1 u h

/-- Witness for the C2 drain theorem on a two-task queue: the
priority-5 task is executed, the priority-1 task stays queued. -/
theorem processWarmupQueue_drain_witness :
    ∃ t rest,
      Cache.processWarmupQueue
          ⟨[], [⟨"a", "A", some 1, none, .ok (), false⟩,
                ⟨"b", "B", some 5, none, .ok (), false⟩], false⟩ =
        ({ warmupTasks := [], warmupQueue := rest, isProcessingWarmup := false },
          some (t, executeWarmupTask t)) ∧
      t ∈ [(⟨"a", "A", some 1, none, .ok (), false⟩ : WarmupTask),
           ⟨"b", "B", some 5, none, .ok (), false⟩] ∧
      (∀ u ∈ [(⟨"a", "A", some 1, none, .ok (), false⟩ : WarmupTask),
              ⟨"b", "B", some 5, none, .ok (), false⟩], prioOf u ≤ prioOf t) ∧
      List.Perm [(⟨"a", "A", some 1, none, .ok (), false⟩ : WarmupTask),
           ⟨"b", "B", some 5, none, .ok (), false⟩] (t :: rest) :=
  (processWarmupQueue_drain
    ⟨[], [⟨"a", "A", some 1, none, .ok (), false⟩,
          ⟨"b", "B", some 5, none, .ok (), false⟩], false⟩).2.2 rfl (by decide)

/-! ## Queueing a warmup task (C5) -/

theorem lookupTask_id (m : List (String × WarmupTask)) (id : String) (task : WarmupTask)
    (hwf : RegistryWF m) (h : lookupTask m id = some task) : task.id = id := by
  unfold lookupTask at h
  cases hf : List.find? (fun p => p.1 == id) m with
  | none => rw [hf] at h; exact absurd h (by simp)
  | some p =>
    rw [hf] at h
    have hmem := List.mem_of_find?_eq_some hf
    have hkey := List.find?_some hf
    have hpt : p.2 = task := by simpa using h
    rw [← hpt, hwf p hmem]
    exact eq_of_beq hkey

/-- C5: `queueWarmupTask` raises a not-found error for an unregistered
id; returns `false` and leaves everything unchanged when the task is
already queued; otherwise appends the override-applied copy, emits
`queued`, and returns `true` — after which queueing the same id again
returns `false`, and distinctness of queued ids is preserved. -/
theorem queueWarmupTask_contract (s : Scheduler) (id : String) (o : QueueWarmupOptions)
    (hwf : RegistryWF s.warmupTasks) :
    (lookupTask s.warmupTasks id = none →
      (Cache.queueWarmupTask s id o).1 =
        .error ("Warmup task with id " ++ id ++ " not found")) ∧
    (∀ task, lookupTask s.warmupTasks id = some task →
      (s.warmupQueue.any (fun t => t.id == id) = true →
        Cache.queueWarmupTask s id o = (.ok false, s, [])) ∧
      (s.warmupQueue.any (fun t => t.id == id) = false →
        Cache.queueWarmupTask s id o =
          (.ok true, { s with warmupQueue := s.warmupQueue ++ [applyOverride task o] },
            [.warmupEv id .queued]) ∧
        (Cache.queueWarmupTask
            { s with warmupQueue := s.warmupQueue ++ [applyOverride task o] } id o).1 =
          .ok false ∧
        ((s.warmupQueue.map (fun t => t.id)).Nodup →
          (((s.warmupQueue ++ [applyOverride task o]).map (fun t => t.id))).Nodup))) := by
  constructor
  · intro h
    simp [Cache.queueWarmupTask, h]
  · intro task htask
    have hid : task.id = id := lookupTask_id _ _ _ hwf htask
    have hoid : (applyOverride task o).id = task.id := by
      unfold applyOverride
      cases o.priority <;> rfl
    constructor
    · intro hq
      simp [Cache.queueWarmupTask, htask, hq]
    · intro hq
      refine ⟨by simp [Cache.queueWarmupTask, htask, hq], ?_, ?_⟩
      · have hany : ((s.warmupQueue ++ [applyOverride task o]).any (fun t => t.id == id)) = true := by
          rw [List.any_append]
          simp [hoid, hid]
        simp [Cache.queueWarmupTask, htask, hany]
      · intro hnd
        rw [List.map_append, List.nodup_append]
        refine ⟨hnd, List.nodup_singleton _, ?_⟩
        intro a ha hb
        rcases List.mem_map.mp ha with ⟨t', ht', rfl⟩
        simp only [List.map_cons, List.map_nil, List.mem_singleton, hoid, hid] at hb
        have hct : s.warmupQueue.any (fun t => t.id == id) = true :=
          List.any_eq_true.mpr ⟨t', ht', beq_iff_eq.mpr hb⟩
        rw [hq] at hct
        exact Bool.noConfusion hct

/-- Witness for the C5 theorem: queueing a registered task with a
priority override succeeds once and is refused the second time. -/
theorem queueWarmupTask_contract_witness :
    Cache.queueWarmupTask ⟨[("w", wTask)], [], false⟩ "w" ⟨some 5⟩ =
      (.ok true, { warmupTasks := [("w", wTask)],
                   warmupQueue := [] ++ [applyOverride wTask ⟨some 5⟩],
                   isProcessingWarmup := false }, [.warmupEv "w" .queued]) ∧
    (Cache.queueWarmupTask
        { warmupTasks := [("w", wTask)],
          warmupQueue := [] ++ [applyOverride wTask ⟨some 5⟩],
          isProcessingWarmup := false } "w" ⟨some 5⟩).1 = .ok false := by
  have h := ((queueWarmupTask_contract ⟨[("w", wTask)], [], false⟩ "w" ⟨some 5⟩
    (fun p hp => by rcases List.mem_singleton.mp hp with rfl; rfl)).2 wTask rfl).2 rfl
  exact ⟨h.1, h.2.1⟩

/-! ## Structure of `Cache.set` -/

/-- A rejected conditional write leaves the call with `false` and the
state untouched. -/
theorem set_eq_of_cond_none (cfg : EffConfig) (cd : Codec) (st : CacheState)
    (key : String) (v : JVal) (o : SetOptions) (hv : validateKey key = .ok ())
    (hcond : rsetCond st.store
        (generateCacheKey key (some (o.nsOpt.getD cfg.defaultNamespace)) (some cfg.keyPrefix))
        (if (o.compressOpt.getD cfg.enableCompression) && shouldCompress (serialize v) 1024
         then cd.comp (serialize v) else serialize v)
        (orTruthyInt (parseTtl o.ttl) cfg.defaultTtl) o.nx o.xx = none) :
    Cache.set cfg cd st key v o = (.ok false, st) := by
  simp only [Cache.set, hv, hcond]

/-- An accepted conditional write: the success state spelled out. -/
theorem set_eq_of_cond_some (cfg : EffConfig) (cd : Codec) (st : CacheState)
    (key : String) (v : JVal) (o : SetOptions) (store1 : Store)
    (hv : validateKey key = .ok ())
    (hcond : rsetCond st.store
        (generateCacheKey key (some (o.nsOpt.getD cfg.defaultNamespace)) (some cfg.keyPrefix))
        (if (o.compressOpt.getD cfg.enableCompression) && shouldCompress (serialize v) 1024
         then cd.comp (serialize v) else serialize v)
        (orTruthyInt (parseTtl o.ttl) cfg.defaultTtl) o.nx o.xx = some store1) :
    Cache.set cfg cd st key v o =
      (.ok true,
        ⟨(if ((o.compressOpt.getD cfg.enableCompression) && shouldCompress (serialize v) 1024)
              || o.tags.isSome then
            (if 0 < orTruthyInt (parseTtl o.ttl) cfg.defaultTtl then
              rexpire
                (rhset store1
                  (generateCacheKey key (some (o.nsOpt.getD cfg.defaultNamespace))
                    (some cfg.keyPrefix) ++ ":meta")
                  ⟨(o.compressOpt.getD cfg.enableCompression) && shouldCompress (serialize v) 1024,
                   o.tags.getD []⟩)
                (generateCacheKey key (some (o.nsOpt.getD cfg.defaultNamespace))
                  (some cfg.keyPrefix) ++ ":meta")
                (orTruthyInt (parseTtl o.ttl) cfg.defaultTtl)
            else
              rhset store1
                (generateCacheKey key (some (o.nsOpt.getD cfg.defaultNamespace))
                  (some cfg.keyPrefix) ++ ":meta")
                ⟨(o.compressOpt.getD cfg.enableCompression) && shouldCompress (serialize v) 1024,
                 o.tags.getD []⟩)
          else store1),
         { st.stats with sets := st.stats.sets + 1 },
         st.events ++ [.setEv key (o.nsOpt.getD cfg.defaultNamespace)]⟩) := by
  simp only [Cache.set, hv, hcond]

/-- A plain (non-`NX`, non-`XX`) conditional write always succeeds. -/
theorem rsetCond_plain (st : Store) (k v : String) (ttl : Int) :
    rsetCond st k v ttl false false =
      some (rsetStr st k v (if 0 < ttl then some ttl else none)) := by
  simp [rsetCond]

/-- An `NX` write on an absent key succeeds. -/
theorem rsetCond_nx_absent (st : Store) (k v : String) (ttl : Int) (xx : Bool)
    (h : st.find? k = none) :
    rsetCond st k v ttl true xx =
      some (rsetStr st k v (if 0 < ttl then some ttl else none)) := by
  simp [rsetCond, h]

/-- An `NX` write on a present key is rejected. -/
theorem rsetCond_nx_present (st : Store) (k v : String) (ttl : Int) (xx : Bool)
    (e : RediEntry) (h : st.find? k = some e) :
    rsetCond st k v ttl true xx = none := by
  simp [rsetCond, h]

/-- Every accepted conditional write produces exactly the unconditional
`SET` result. -/
theorem rsetCond_some_eq (st : Store) (k v : String) (ttl : Int) (nx xx : Bool)
    (store1 : Store) (h : rsetCond st k v ttl nx xx = some store1) :
    store1 = rsetStr st k v (if 0 < ttl then some ttl else none) := by
  unfold rsetCond at h
  by_cases hnx : nx = true
  · rw [if_pos hnx] at h
    cases hf : st.find? k with
    | some e => rw [hf] at h; exact absurd h (by simp)
    | none => rw [hf] at h; exact (Option.some.inj h).symm
  · rw [if_neg hnx] at h
    by_cases hxx : xx = true
    · rw [if_pos hxx] at h
      cases hf : st.find? k with
      | some e => rw [hf] at h; exact (Option.some.inj h).symm
      | none => rw [hf] at h; exact absurd h (by simp)
    · rw [if_neg hxx] at h
      exact (Option.some.inj h).symm

/-! ## `set` with `nx` (C8) -/

/-- C8: `set(k, v, {nx:true})` on an absent key returns `true` and
stores the encoded value; an immediately following `set(k, v2,
{nx:true})` returns `false` without raising and leaves the whole cache
state — stored value, counters, event log — exactly as it was after
the first call. -/
theorem set_nx_idempotent_reject (cfg : EffConfig) (cd : Codec) (st : CacheState)
    (key : String) (v v2 : JVal) (o o2 : SetOptions)
    (hv : validateKey key = .ok ()) (hnx : o.nx = true) (hnx2 : o2.nx = true)
    (hns : o2.nsOpt = o.nsOpt)
    (habs : st.store.find?
      (generateCacheKey key (some (o.nsOpt.getD cfg.defaultNamespace))
        (some cfg.keyPrefix)) = none) :
    (Cache.set cfg cd st key v o).1 = .ok true ∧
    rget (Cache.set cfg cd st key v o).2.store
        (generateCacheKey key (some (o.nsOpt.getD cfg.defaultNamespace))
          (some cfg.keyPrefix)) =
      some (if (o.compressOpt.getD cfg.enableCompression) && shouldCompress (serialize v) 1024
            then cd.comp (serialize v) else serialize v) ∧
    Cache.set cfg cd (Cache.set cfg cd st key v o).2 key v2 o2 =
      (.ok false, (Cache.set cfg cd st key v o).2) := by
  set ns := o.nsOpt.getD cfg.defaultNamespace with hnsd
  set ck := generateCacheKey key (some ns) (some cfg.keyPrefix) with hckd
  set fv := (if (o.compressOpt.getD cfg.enableCompression) && shouldCompress (serialize v) 1024
            then cd.comp (serialize v) else serialize v) with hfvd
  set ttl := orTruthyInt (parseTtl o.ttl) cfg.defaultTtl with httld
  have hcond : rsetCond st.store ck fv ttl o.nx o.xx =
      some (rsetStr st.store ck fv (if 0 < ttl then some ttl else none)) := by
    rw [hnx]
    exact rsetCond_nx_absent _ _ _ _ _ habs
  have h1 := set_eq_of_cond_some cfg cd st key v o _ hv hcond
  have hfind : (Cache.set cfg cd st key v o).2.store.find? ck =
      some ⟨ck, .str fv, (if 0 < ttl then some ttl else none)⟩ := by
    rw [h1]
    have hne : ck ≠ ck ++ ":meta" := ne_append_meta ck
    by_cases hm : (((o.compressOpt.getD cfg.enableCompression)
        && shouldCompress (serialize v) 1024) || o.tags.isSome) = true
    · rw [if_pos hm]
      by_cases hpos : 0 < ttl
      · rw [if_pos (httld ▸ hpos)]
        rw [find?_rexpire_ne _ _ _ _ hne, find?_rhset_ne _ _ _ _ hne,
          find?_rsetStr_self]
      · rw [if_neg (httld ▸ hpos)]
        rw [find?_rhset_ne _ _ _ _ hne, find?_rsetStr_self]
    · rw [if_neg hm]
      rw [find?_rsetStr_self]
  refine ⟨by rw [h1], by simp [rget, hfind], ?_⟩
  have hcond2 : rsetCond (Cache.set cfg cd st key v o).2.store
      (generateCacheKey key (some (o2.nsOpt.getD cfg.defaultNamespace))
        (some cfg.keyPrefix))
      (if (o2.compressOpt.getD cfg.enableCompression) && shouldCompress (serialize v2) 1024
       then cd.comp (serialize v2) else serialize v2)
      (orTruthyInt (parseTtl o2.ttl) cfg.defaultTtl) o2.nx o2.xx = none := by
    rw [hns, hnx2]
    exact rsetCond_nx_present _ _ _ _ _ _ hfind
  exact set_eq_of_cond_none cfg cd _ key v2 o2 hv hcond2

/-- Witness for the C8 theorem on an empty store with the default
config (values below the compression threshold). -/
theorem set_nx_idempotent_reject_witness :
    (Cache.set cfgDefault idCodec ⟨[], ⟨0, 0, 0, 0, 0⟩, []⟩ "k" (.jstr "v1")
        ⟨none, none, none, none, true, false⟩).1 = .ok true ∧
    rget (Cache.set cfgDefault idCodec ⟨[], ⟨0, 0, 0, 0, 0⟩, []⟩ "k" (.jstr "v1")
        ⟨none, none, none, none, true, false⟩).2.store "frache:cache:k" =
      some "v1" ∧
    Cache.set cfgDefault idCodec
        (Cache.set cfgDefault idCodec ⟨[], ⟨0, 0, 0, 0, 0⟩, []⟩ "k" (.jstr "v1")
          ⟨none, none, none, none, true, false⟩).2 "k" (.jstr "v2")
        ⟨none, none, none, none, true, false⟩ =
      (.ok false,
        (Cache.set cfgDefault idCodec ⟨[], ⟨0, 0, 0, 0, 0⟩, []⟩ "k" (.jstr "v1")
          ⟨none, none, none, none, true, false⟩).2) := by
  have h := set_nx_idempotent_reject cfgDefault idCodec ⟨[], ⟨0, 0, 0, 0, 0⟩, []⟩
    "k" (.jstr "v1") (.jstr "v2") ⟨none, none, none, none, true, false⟩
    ⟨none, none, none, none, true, false⟩ rfl rfl rfl rfl rfl
  exact ⟨h.1, h.2.1, h.2.2⟩

/-! ## `get` with `refreshTtl` (C9) -/

theorem rget_some_find? (st : Store) (k raw : String) (h : rget st k = some raw) :
    ∃ tl, st.find? k = some ⟨k, .str raw, tl⟩ := by
  unfold rget at h
  cases hf : st.find? k with
  | none => rw [hf] at h; exact absurd h (by simp)
  | some e =>
    rw [hf] at h
    obtain ⟨ek, ev, et⟩ := e
    cases ev with
    | hash m => exact absurd h (by simp)
    | str s =>
      have hs : s = raw := by simpa using h
      have hkey : ek = k := eq_of_beq (by simpa using List.find?_some hf)
      subst hs
      subst hkey
      exact ⟨et, rfl⟩

theorem rhgetall_some_find? (st : Store) (k : String) (m : MetaRec)
    (h : rhgetall st k = some m) :
    ∃ tl, st.find? k = some ⟨k, .hash m, tl⟩ := by
  unfold rhgetall at h
  cases hf : st.find? k with
  | none => rw [hf] at h; exact absurd h (by simp)
  | some e =>
    rw [hf] at h
    obtain ⟨ek, ev, et⟩ := e
    cases ev with
    | str s => exact absurd h (by simp)
    | hash m2 =>
      have hs : m2 = m := by simpa using h
      have hkey : ek = k := eq_of_beq (by simpa using List.find?_some hf)
      subst hs
      subst hkey
      exact ⟨et, rfl⟩

/-- C9 counterexample: on a hit with `refreshTtl: true` but no `ttl`
option, the code refreshes nothing — the guard is
`options.refreshTtl && options.ttl` — so desynchronized primary and
metadata TTLs stay desynchronized and unchanged. -/
theorem get_refreshTtl_without_ttl_counterexample :
    (Cache.get cfgDefault idCodec
        ⟨[⟨"frache:cache:k", .str "v", some 100⟩,
          ⟨"frache:cache:k:meta", .hash ⟨false, []⟩, some 50⟩],
         ⟨0, 0, 0, 0, 0⟩, []⟩ "k" ⟨none, none, none, true⟩).1 = .ok (some (.jstr "v")) ∧
    (Cache.get cfgDefault idCodec
        ⟨[⟨"frache:cache:k", .str "v", some 100⟩,
          ⟨"frache:cache:k:meta", .hash ⟨false, []⟩, some 50⟩],
         ⟨0, 0, 0, 0, 0⟩, []⟩ "k" ⟨none, none, none, true⟩).2.store =
      [⟨"frache:cache:k", .str "v", some 100⟩,
       ⟨"frache:cache:k:meta", .hash ⟨false, []⟩, some 50⟩] :=
  ⟨rfl, rfl⟩

/-- C9 (amended): the TTL refresh on `get` happens only when
`refreshTtl` is requested AND a (truthy, positive) `ttl` option is
supplied on the same call; in that case the primary record's TTL is set
to that `ttl`, and so is the metadata record's when one exists, keeping
the two synchronized. -/
theorem get_refresh_with_ttl (cfg : EffConfig) (cd : Codec) (st : CacheState)
    (key raw : String) (o : GetOptions) (t : Int)
    (hv : validateKey key = .ok ())
    (hr : o.refreshTtl = true) (ht : o.ttl = some t) (htpos : 0 < t)
    (hhit : rget st.store
      (generateCacheKey key (some (o.nsOpt.getD cfg.defaultNamespace))
        (some cfg.keyPrefix)) = some raw) :
    ttlAt (Cache.get cfg cd st key o).2.store
        (generateCacheKey key (some (o.nsOpt.getD cfg.defaultNamespace))
          (some cfg.keyPrefix)) = some t ∧
    (rhgetall st.store
        (generateCacheKey key (some (o.nsOpt.getD cfg.defaultNamespace))
          (some cfg.keyPrefix) ++ ":meta") ≠ none →
      ttlAt (Cache.get cfg cd st key o).2.store
          (generateCacheKey key (some (o.nsOpt.getD cfg.defaultNamespace))
            (some cfg.keyPrefix) ++ ":meta") = some t) ∧
    (Cache.get cfg cd st key o).1 = .ok (some (deserialize
      (match rhgetall st.store
          (generateCacheKey key (some (o.nsOpt.getD cfg.defaultNamespace))
            (some cfg.keyPrefix) ++ ":meta") with
       | some m => if m.compressed then cd.decomp raw else raw
       | none => raw))) := by
  set ns := o.nsOpt.getD cfg.defaultNamespace with hnsd
  set ck := generateCacheKey key (some ns) (some cfg.keyPrefix) with hckd
  set mk := ck ++ ":meta" with hmkd
  have htz : (t == 0) = false := beq_eq_false_iff_ne.mpr (by omega)
  obtain ⟨tl, hfck⟩ := rget_some_find? st.store ck raw hhit
  cases hm : rhgetall st.store mk with
  | some m =>
    obtain ⟨tlm, hfmk⟩ := rhgetall_some_find? st.store mk m hm
    have heq : Cache.get cfg cd st key o =
        (.ok (some (deserialize (if m.compressed then cd.decomp raw else raw))),
          ⟨rexpire (rexpire st.store ck t) mk t,
           { st.stats with hits := st.stats.hits + 1 },
           st.events ++ [.hitEv key ns]⟩) := by
      simp only [Cache.get, hv, ← hckd, ← hmkd, hhit, hm, ht, hr, htz, htpos, parseTtl,
        Bool.not_false, Bool.and_self, if_true, Option.isSome_some]
    rw [heq]
    refine ⟨?_, fun _ => ?_, rfl⟩
    · show ttlAt (rexpire (rexpire st.store ck t) mk t) ck = some t
      unfold ttlAt
      rw [find?_rexpire_ne _ _ _ _ (ne_append_meta ck), find?_rexpire_self, hfck]
      rfl
    · show ttlAt (rexpire (rexpire st.store ck t) mk t) mk = some t
      unfold ttlAt
      rw [find?_rexpire_self, find?_rexpire_ne _ _ _ _ (meta_append_ne ck), hfmk]
      rfl
  | none =>
    have heq : Cache.get cfg cd st key o =
        (.ok (some (deserialize raw)),
          ⟨rexpire st.store ck t,
           { st.stats with hits := st.stats.hits + 1 },
           st.events ++ [.hitEv key ns]⟩) := by
      simp only [Cache.get, hv, ← hckd, ← hmkd, hhit, hm, ht, hr, htz, htpos, parseTtl,
        Bool.not_false, Bool.and_self, if_true, Option.isSome_none, Bool.false_eq_true,
        if_false]
    rw [heq]
    refine ⟨?_, fun hcontra => absurd rfl hcontra, rfl⟩
    show ttlAt (rexpire st.store ck t) ck = some t
    unfold ttlAt
    rw [find?_rexpire_self, hfck]
    rfl

/-- Witness for the amended C9 theorem: a hit with `refreshTtl: true`
and `ttl: 500` sets both TTLs to 500. -/
theorem get_refresh_with_ttl_witness :
    ttlAt (Cache.get cfgDefault idCodec
        ⟨[⟨"frache:cache:k", .str "v", some 100⟩,
          ⟨"frache:cache:k:meta", .hash ⟨false, []⟩, some 50⟩],
         ⟨0, 0, 0, 0, 0⟩, []⟩ "k" ⟨some 500, none, none, true⟩).2.store
      "frache:cache:k" = some 500 ∧
    ttlAt (Cache.get cfgDefault idCodec
        ⟨[⟨"frache:cache:k", .str "v", some 100⟩,
          ⟨"frache:cache:k:meta", .hash ⟨false, []⟩, some 50⟩],
         ⟨0, 0, 0, 0, 0⟩, []⟩ "k" ⟨some 500, none, none, true⟩).2.store
      "frache:cache:k:meta" = some 500 := by
  have h := get_refresh_with_ttl cfgDefault idCodec
    ⟨[⟨"frache:cache:k", .str "v", some 100⟩,
      ⟨"frache:cache:k:meta", .hash ⟨false, []⟩, some 50⟩],
     ⟨0, 0, 0, 0, 0⟩, []⟩ "k" "v" ⟨some 500, none, none, true⟩ 500
    rfl rfl rfl (by decide) rfl
  exact ⟨h.1, h.2.1 (by decide)⟩

/-! ## Metadata on `set` (C4) -/

/-- C4 counterexample: a successful tagged re-`set` with an explicitly
negative TTL (truthy, so it survives the `||` defaulting, but fails the
`ttl > 0` guard) writes the metadata hash without touching its TTL:
the stale metadata TTL survives while the plain `SET` clears the
primary's, so the two TTLs are not equal after the write. -/
theorem set_metadata_ttl_desync_counterexample :
    (Cache.set cfgDefault idCodec
        ⟨[⟨"frache:cache:k", .str "old", some 100⟩,
          ⟨"frache:cache:k:meta", .hash ⟨false, ["t"]⟩, some 100⟩],
         ⟨0, 0, 0, 0, 0⟩, []⟩ "k" (.jstr "v")
        ⟨some (-1), none, some ["t"], none, false, false⟩).1 = .ok true ∧
    ttlAt (Cache.set cfgDefault idCodec
        ⟨[⟨"frache:cache:k", .str "old", some 100⟩,
          ⟨"frache:cache:k:meta", .hash ⟨false, ["t"]⟩, some 100⟩],
         ⟨0, 0, 0, 0, 0⟩, []⟩ "k" (.jstr "v")
        ⟨some (-1), none, some ["t"], none, false, false⟩).2.store
      "frache:cache:k" = none ∧
    ttlAt (Cache.set cfgDefault idCodec
        ⟨[⟨"frache:cache:k", .str "old", some 100⟩,
          ⟨"frache:cache:k:meta", .hash ⟨false, ["t"]⟩, some 100⟩],
         ⟨0, 0, 0, 0, 0⟩, []⟩ "k" (.jstr "v")
        ⟨some (-1), none, some ["t"], none, false, false⟩).2.store
      "frache:cache:k:meta" = some 100 :=
  ⟨rfl, rfl, rfl⟩

/-- C4 (amended): on every successful `set`, the metadata record is
written if and only if the stored value was compressed or tags were
supplied; when the effective TTL is positive, the written metadata's
TTL and the primary's TTL are both set to it (and hence equal); with a
non-positive effective TTL the metadata hash keeps whatever TTL the
metadata key had.  When the value is uncompressed and no tags were
supplied, the metadata key is left completely untouched. -/
theorem set_metadata_iff (cfg : EffConfig) (cd : Codec) (st : CacheState)
    (key : String) (v : JVal) (o : SetOptions)
    (hv : validateKey key = .ok ())
    (hsucc : (Cache.set cfg cd st key v o).1 = .ok true) :
    ((((o.compressOpt.getD cfg.enableCompression) && shouldCompress (serialize v) 1024)
        || o.tags.isSome) = true →
      rhgetall (Cache.set cfg cd st key v o).2.store
          (generateCacheKey key (some (o.nsOpt.getD cfg.defaultNamespace))
            (some cfg.keyPrefix) ++ ":meta") =
        some ⟨(o.compressOpt.getD cfg.enableCompression) && shouldCompress (serialize v) 1024,
              o.tags.getD []⟩ ∧
      (0 < orTruthyInt (parseTtl o.ttl) cfg.defaultTtl →
        ttlAt (Cache.set cfg cd st key v o).2.store
            (generateCacheKey key (some (o.nsOpt.getD cfg.defaultNamespace))
              (some cfg.keyPrefix) ++ ":meta") =
          some (orTruthyInt (parseTtl o.ttl) cfg.defaultTtl) ∧
        ttlAt (Cache.set cfg cd st key v o).2.store
            (generateCacheKey key (some (o.nsOpt.getD cfg.defaultNamespace))
              (some cfg.keyPrefix)) =
          some (orTruthyInt (parseTtl o.ttl) cfg.defaultTtl))) ∧
    ((((o.compressOpt.getD cfg.enableCompression) && shouldCompress (serialize v) 1024)
        || o.tags.isSome) = false →
      (Cache.set cfg cd st key v o).2.store.find?
          (generateCacheKey key (some (o.nsOpt.getD cfg.defaultNamespace))
            (some cfg.keyPrefix) ++ ":meta") =
        st.store.find?
          (generateCacheKey key (some (o.nsOpt.getD cfg.defaultNamespace))
            (some cfg.keyPrefix) ++ ":meta")) := by
  set ns := o.nsOpt.getD cfg.defaultNamespace with hnsd
  set ck := generateCacheKey key (some ns) (some cfg.keyPrefix) with hckd
  set fv := (if (o.compressOpt.getD cfg.enableCompression) && shouldCompress (serialize v) 1024
            then cd.comp (serialize v) else serialize v) with hfvd
  set ttl := orTruthyInt (parseTtl o.ttl) cfg.defaultTtl with httld
  cases hc : rsetCond st.store ck fv ttl o.nx o.xx with
  | none =>
    rw [set_eq_of_cond_none cfg cd st key v o hv hc] at hsucc
    exact absurd hsucc (by simp)
  | some store1 =>
    have hs1 := rsetCond_some_eq _ _ _ _ _ _ _ hc
    have heq := set_eq_of_cond_some cfg cd st key v o store1 hv hc
    rw [heq]
    constructor
    · intro hm
      show (rhgetall (if _ then _ else store1) (ck ++ ":meta") = _) ∧ _
      rw [if_pos hm]
      constructor
      · by_cases hpos : 0 < ttl
        · rw [if_pos (httld ▸ hpos), rhgetall_rexpire]
          unfold rhgetall
          rw [find?_rhset_self]
        · rw [if_neg (httld ▸ hpos)]
          unfold rhgetall
          rw [find?_rhset_self]
      · intro hpos
        rw [if_pos (httld ▸ hpos)]
        constructor
        · show ttlAt (rexpire _ (ck ++ ":meta") _) (ck ++ ":meta") = _
          unfold ttlAt
          rw [find?_rexpire_self, find?_rhset_self]
          rfl
        · show ttlAt (rexpire _ (ck ++ ":meta") _) ck = _
          unfold ttlAt
          rw [find?_rexpire_ne _ _ _ _ (ne_append_meta ck),
            find?_rhset_ne _ _ _ _ (ne_append_meta ck), hs1, find?_rsetStr_self]
          rw [if_pos hpos]
    · intro hm
      have hnot : ¬((((o.compressOpt.getD cfg.enableCompression)
          && shouldCompress (serialize v) 1024) || o.tags.isSome) = true) := by
        rw [hm]; exact Bool.false_ne_true
      show (if _ then _ else store1).find? (ck ++ ":meta") = _
      rw [if_neg hnot, hs1, find?_rsetStr_ne _ _ _ _ _ (meta_append_ne ck)]

/-- Witness for the amended C4 theorem: a tagged set with the default
positive TTL writes the metadata record and synchronizes both TTLs at
3600. -/
theorem set_metadata_iff_witness :
    rhgetall (Cache.set cfgDefault idCodec ⟨[], ⟨0, 0, 0, 0, 0⟩, []⟩ "k" (.jstr "v")
        ⟨none, none, some ["t"], none, false, false⟩).2.store
      "frache:cache:k:meta" = some ⟨false, ["t"]⟩ ∧
    ttlAt (Cache.set cfgDefault idCodec ⟨[], ⟨0, 0, 0, 0, 0⟩, []⟩ "k" (.jstr "v")
        ⟨none, none, some ["t"], none, false, false⟩).2.store
      "frache:cache:k:meta" = some 3600 ∧
    ttlAt (Cache.set cfgDefault idCodec ⟨[], ⟨0, 0, 0, 0, 0⟩, []⟩ "k" (.jstr "v")
        ⟨none, none, some ["t"], none, false, false⟩).2.store
      "frache:cache:k" = some 3600 := by
  have h := (set_metadata_iff cfgDefault idCodec ⟨[], ⟨0, 0, 0, 0, 0⟩, []⟩ "k" (.jstr "v")
    ⟨none, none, some ["t"], none, false, false⟩ rfl rfl).1 rfl
  exact ⟨h.1, (h.2 (by decide)).1, (h.2 (by decide)).2⟩

/-! ## Round trip of the value codec (C7): decimal digits -/

theorem beq_false_of_toNat_ne {c d : Char} (h : c.toNat ≠ d.toNat) : (c == d) = false :=
  beq_eq_false_iff_ne.mpr (fun he => h (he ▸ rfl))

theorem toNat_bounds_of_isDigit {c : Char} (h : isDigit c = true) :
    48 ≤ c.toNat ∧ c.toNat ≤ 57 := by
  unfold isDigit at h
  simp only [Bool.and_eq_true, decide_eq_true_eq] at h
  exact h

theorem digitVal_digitChar {n : Nat} (h : n < 10) : digitVal (digitChar n) = n := by
  interval_cases n <;> decide

theorem isDigit_digitChar {n : Nat} (h : n < 10) : isDigit (digitChar n) = true := by
  interval_cases n <;> decide

theorem natDigitsAux_acc (fuel : Nat) : ∀ (n : Nat) (acc : List Char),
    natDigitsAux fuel n acc = natDigitsAux fuel n [] ++ acc := by
  induction fuel with
  | zero => intro n acc; simp [natDigitsAux]
  | succ f ih =>
    intro n acc
    by_cases h : n < 10
    · simp [natDigitsAux, h]
    · simp only [natDigitsAux, if_neg h]
      rw [ih (n / 10) (digitChar (n % 10) :: acc), ih (n / 10) [digitChar (n % 10)]]
      simp

theorem natDigitsAux_fuel_eq : ∀ (n fuel fuel' : Nat) (acc : List Char),
    n < fuel → n < fuel' → natDigitsAux fuel n acc = natDigitsAux fuel' n acc := by
  intro n
  induction n using Nat.strong_induction_on with
  | _ n ih =>
    intro fuel fuel' acc hf hf'
    cases fuel with
    | zero => omega
    | succ f =>
      cases fuel' with
      | zero => omega
      | succ f' =>
        by_cases h : n < 10
        · simp [natDigitsAux, h]
        · simp only [natDigitsAux, if_neg h]
          exact ih (n / 10) (Nat.div_lt_self (by omega) (by omega)) _ _ _
            (by omega) (by omega)

theorem natDigits_eq (n : Nat) : natDigits n =
    if n < 10 then [digitChar n] else natDigits (n / 10) ++ [digitChar (n % 10)] := by
  by_cases h : n < 10
  · rw [if_pos h]
    unfold natDigits
    simp [natDigitsAux, h]
  · rw [if_neg h]
    show natDigitsAux (n + 1) n [] = natDigits (n / 10) ++ [digitChar (n % 10)]
    have hstep : natDigitsAux (n + 1) n [] =
        natDigitsAux n (n / 10) [digitChar (n % 10)] := by
      simp [natDigitsAux, h]
    rw [hstep, natDigitsAux_fuel_eq (n / 10) n (n / 10 + 1) _ (by omega) (by omega),
      natDigitsAux_acc]
    rfl

theorem natDigits_all_digits (n : Nat) : ∀ c ∈ natDigits n, isDigit c = true := by
  induction n using Nat.strong_induction_on with
  | _ n ih =>
    rw [natDigits_eq n]
    by_cases h : n < 10
    · rw [if_pos h]
      intro c hc
      rcases List.mem_singleton.mp hc with rfl
      exact isDigit_digitChar h
    · rw [if_neg h]
      intro c hc
      rcases List.mem_append.mp hc with hc | hc
      · exact ih (n / 10) (Nat.div_lt_self (by omega) (by omega)) c hc
      · rcases List.mem_singleton.mp hc with rfl
        exact isDigit_digitChar (Nat.mod_lt _ (by omega))

theorem natDigits_ne_nil (n : Nat) : natDigits n ≠ [] := by
  rw [natDigits_eq n]
  by_cases h : n < 10 <;> simp [h]

theorem natDigits_head_ne_zero (n : Nat) (h0 : 0 < n) :
    ∀ c cs, natDigits n = c :: cs → (c == '0') = false := by
  induction n using Nat.strong_induction_on with
  | _ n ih =>
    intro c cs hc
    rw [natDigits_eq n] at hc
    by_cases h : n < 10
    · rw [if_pos h] at hc
      cases hc
      interval_cases n <;> decide
    · rw [if_neg h] at hc
      cases hnd : natDigits (n / 10) with
      | nil => exact absurd hnd (natDigits_ne_nil _)
      | cons c' cs' =>
        rw [hnd] at hc
        have hcc : c' = c := by simpa using congrArg (fun l => l.head?) hc
        subst hcc
        exact ih (n / 10) (Nat.div_lt_self (by omega) (by omega))
          (by omega) c' cs' hnd

theorem natDigits_val (n : Nat) : ∀ (acc : Nat),
    (natDigits n).foldl (fun a c => a * 10 + digitVal c) acc
      = acc * 10 ^ (natDigits n).length + n := by
  induction n using Nat.strong_induction_on with
  | _ n ih =>
    intro acc
    rw [natDigits_eq n]
    by_cases h : n < 10
    · rw [if_pos h]
      simp [List.foldl, digitVal_digitChar h]
    · rw [if_neg h]
      rw [List.foldl_append, ih (n / 10) (Nat.div_lt_self (by omega) (by omega)) acc]
      simp only [List.foldl, digitVal_digitChar (Nat.mod_lt n (by omega)),
        List.length_append, List.length_singleton]
      have hrw : (acc * 10 ^ (natDigits (n / 10)).length + n / 10) * 10 + n % 10 =
          acc * (10 ^ (natDigits (n / 10)).length * 10) + (10 * (n / 10) + n % 10) := by
        ring
      rw [hrw, Nat.div_add_mod, pow_succ]

theorem parseDigits_append (ds : List Char) : ∀ (rest : List Char) (acc : Nat),
    (∀ c ∈ ds, isDigit c = true) → digitStart rest = false →
    parseDigits (ds ++ rest) acc =
      (ds.foldl (fun a c => a * 10 + digitVal c) acc, rest) := by
  induction ds with
  | nil =>
    intro rest acc _ hrest
    cases rest with
    | nil => rfl
    | cons c cs =>
      have : isDigit c = false := hrest
      simp [parseDigits, this]
  | cons d ds ih =>
    intro rest acc hds hrest
    have hd : isDigit d = true := hds d (List.mem_cons_self d ds)
    simp only [List.cons_append, parseDigits, hd, if_true, List.foldl]
    exact ih rest _ (fun c hc => hds c (List.mem_cons_of_mem d hc)) hrest

theorem parseUNum_natDigits (n : Nat) (rest : List Char)
    (hrest : digitStart rest = false) :
    parseUNum (natDigits n ++ rest) = some (n, rest) := by
  by_cases h0 : n = 0
  · subst h0
    have h : natDigits 0 = ['0'] := by decide
    rw [h]
    rfl
  · have hpos : 0 < n := Nat.pos_of_ne_zero h0
    cases hnd : natDigits n with
    | nil => exact absurd hnd (natDigits_ne_nil n)
    | cons c cs =>
      have hne0 := natDigits_head_ne_zero n hpos c cs hnd
      have hdig : isDigit c = true :=
        natDigits_all_digits n c (hnd ▸ List.mem_cons_self c cs)
      have hall : ∀ x ∈ c :: cs, isDigit x = true := fun x hx =>
        natDigits_all_digits n x (hnd ▸ hx)
      simp only [List.cons_append, parseUNum, hne0, hdig, if_true, if_false,
        Bool.false_eq_true]
      rw [← List.cons_append, parseDigits_append (c :: cs) rest 0 hall hrest]
      rw [← hnd, natDigits_val n 0]
      simp

theorem parseNum_encodeInt (n : Int) (rest : List Char)
    (hrest : digitStart rest = false) :
    parseNum (encodeInt n ++ rest) = some (n, rest) := by
  by_cases h : n < 0
  · have henc : encodeInt n = '-' :: natDigits (-n).toNat := by
      unfold encodeInt
      rw [if_pos h]
    rw [henc, List.cons_append]
    simp only [parseNum, if_true]
    rw [show (('-' : Char) == '-') = true from rfl]
    simp only [if_true, parseUNum_natDigits _ _ hrest, Option.map_some']
    have : (((-n).toNat : Int)) = -n := Int.toNat_of_nonneg (by omega)
    rw [this]
    simp
  · have henc : encodeInt n = natDigits n.toNat := by
      unfold encodeInt
      rw [if_neg h]
    rw [henc]
    cases hnd : natDigits n.toNat with
    | nil => exact absurd hnd (natDigits_ne_nil _)
    | cons c cs =>
      have hdig : isDigit c = true :=
        natDigits_all_digits _ c (hnd ▸ List.mem_cons_self c cs)
      have hbounds := toNat_bounds_of_isDigit hdig
      have hcm : (c == '-') = false := beq_false_of_toNat_ne (by
        have : ('-' : Char).toNat = 45 := rfl
        omega)
      rw [List.cons_append]
      simp only [parseNum, hcm, Bool.false_eq_true, if_false]
      rw [← List.cons_append, ← hnd, parseUNum_natDigits _ _ hrest]
      simp only [Option.map_some']
      rw [Int.toNat_of_nonneg (by omega)]

/-! ## Round trip of string literals -/

theorem string_mk_data (s : String) : String.mk s.data = s := by
  cases s
  rfl

theorem hexVal_hexDigit {n : Nat} (h : n < 16) : hexVal (hexDigit n) = some n := by
  interval_cases n <;> decide

theorem parseStrAux_quote (rest acc : List Char) :
    parseStrAux ('"' :: rest) acc = some (String.mk acc.reverse, rest) := by
  conv_lhs => rw [parseStrAux.eq_def]
  rfl

theorem parseStrAux_esc_quote (t a : List Char) :
    parseStrAux ('\\' :: '"' :: t) a = parseStrAux t ('"' :: a) := by
  conv_lhs => rw [parseStrAux.eq_def]
  rfl

theorem parseStrAux_esc_back (t a : List Char) :
    parseStrAux ('\\' :: '\\' :: t) a = parseStrAux t ('\\' :: a) := by
  conv_lhs => rw [parseStrAux.eq_def]
  rfl

theorem parseStrAux_esc_b (t a : List Char) :
    parseStrAux ('\\' :: 'b' :: t) a = parseStrAux t ('\x08' :: a) := by
  conv_lhs => rw [parseStrAux.eq_def]
  rfl

theorem parseStrAux_esc_t (t a : List Char) :
    parseStrAux ('\\' :: 't' :: t) a = parseStrAux t ('\t' :: a) := by
  conv_lhs => rw [parseStrAux.eq_def]
  rfl

theorem parseStrAux_esc_n (t a : List Char) :
    parseStrAux ('\\' :: 'n' :: t) a = parseStrAux t ('\n' :: a) := by
  conv_lhs => rw [parseStrAux.eq_def]
  rfl

theorem parseStrAux_esc_f (t a : List Char) :
    parseStrAux ('\\' :: 'f' :: t) a = parseStrAux t ('\x0c' :: a) := by
  conv_lhs => rw [parseStrAux.eq_def]
  rfl

theorem parseStrAux_esc_r (t a : List Char) :
    parseStrAux ('\\' :: 'r' :: t) a = parseStrAux t ('\r' :: a) := by
  conv_lhs => rw [parseStrAux.eq_def]
  rfl

theorem parseStrAux_esc_u (c : Char) (hlt : c.toNat < 32) (t a : List Char) :
    parseStrAux ('\\' :: 'u' :: '0' :: '0' :: hexDigit (c.toNat / 16)
        :: hexDigit (c.toNat % 16) :: t) a = parseStrAux t (c :: a) := by
  have h16a : c.toNat / 16 < 16 := by omega
  have h16b : c.toNat % 16 < 16 := Nat.mod_lt _ (by omega)
  conv_lhs => rw [parseStrAux.eq_def]
  simp only [show (('\\' : Char) == '"') = false from rfl,
    show (('\\' : Char) == '\\') = true from rfl,
    show (('u' : Char) == '"') = false from rfl,
    show (('u' : Char) == '\\') = false from rfl,
    show (('u' : Char) == '/') = false from rfl,
    show (('u' : Char) == 'b') = false from rfl,
    show (('u' : Char) == 't') = false from rfl,
    show (('u' : Char) == 'n') = false from rfl,
    show (('u' : Char) == 'f') = false from rfl,
    show (('u' : Char) == 'r') = false from rfl,
    show (('u' : Char) == 'u') = true from rfl,
    hexVal_hexDigit h16a, hexVal_hexDigit h16b,
    show hexVal '0' = some 0 from rfl,
    Bool.false_eq_true, if_false, if_true]
  rw [show 4096 * 0 + 256 * 0 + 16 * (c.toNat / 16) + c.toNat % 16 = c.toNat by omega]
  rw [show (decide (55296 ≤ c.toNat) && decide (c.toNat ≤ 57343)) = false by
    rw [decide_eq_false (by omega : ¬(55296 ≤ c.toNat))]
    rfl]
  simp only [Bool.false_eq_true, if_false]
  rw [Char.ofNat_toNat]

theorem parseStrAux_plain (c : Char) (t a : List Char)
    (h1 : (c == '"') = false) (h2 : (c == '\\') = false) (h8 : ¬c.toNat < 32) :
    parseStrAux (c :: t) a = parseStrAux t (c :: a) := by
  conv_lhs => rw [parseStrAux.eq_def]
  simp only [h1, h2, Bool.false_eq_true, if_false]
  rw [if_neg h8]

theorem parseStrAux_escBody (cs : List Char) : ∀ (acc rest : List Char),
    parseStrAux (escBody cs ++ '"' :: rest) acc =
      some (String.mk (acc.reverse ++ cs), rest) := by
  induction cs with
  | nil =>
    intro acc rest
    show parseStrAux ('"' :: rest) acc = _
    rw [parseStrAux_quote]
    simp
  | cons c cs ih =>
    intro acc rest
    show parseStrAux ((escChar c ++ escBody cs) ++ '"' :: rest) acc = _
    rw [List.append_assoc]
    cases h1 : (c == '"') with
    | true =>
      rcases eq_of_beq h1 with rfl
      rw [show escChar '"' = ['\\', '"'] from rfl]
      simp only [List.cons_append, List.nil_append]
      rw [parseStrAux_esc_quote, ih ('"' :: acc) rest]
      simp [List.append_assoc]
    | false =>
    cases h2 : (c == '\\') with
    | true =>
      rcases eq_of_beq h2 with rfl
      rw [show escChar '\\' = ['\\', '\\'] from rfl]
      simp only [List.cons_append, List.nil_append]
      rw [parseStrAux_esc_back, ih ('\\' :: acc) rest]
      simp [List.append_assoc]
    | false =>
    cases h3 : (c == '\x08') with
    | true =>
      rcases eq_of_beq h3 with rfl
      rw [show escChar '\x08' = ['\\', 'b'] from rfl]
      simp only [List.cons_append, List.nil_append]
      rw [parseStrAux_esc_b, ih ('\x08' :: acc) rest]
      simp [List.append_assoc]
    | false =>
    cases h4 : (c == '\t') with
    | true =>
      rcases eq_of_beq h4 with rfl
      rw [show escChar '\t' = ['\\', 't'] from rfl]
      simp only [List.cons_append, List.nil_append]
      rw [parseStrAux_esc_t, ih ('\t' :: acc) rest]
      simp [List.append_assoc]
    | false =>
    cases h5 : (c == '\n') with
    | true =>
      rcases eq_of_beq h5 with rfl
      rw [show escChar '\n' = ['\\', 'n'] from rfl]
      simp only [List.cons_append, List.nil_append]
      rw [parseStrAux_esc_n, ih ('\n' :: acc) rest]
      simp [List.append_assoc]
    | false =>
    cases h6 : (c == '\x0c') with
    | true =>
      rcases eq_of_beq h6 with rfl
      rw [show escChar '\x0c' = ['\\', 'f'] from rfl]
      simp only [List.cons_append, List.nil_append]
      rw [parseStrAux_esc_f, ih ('\x0c' :: acc) rest]
      simp [List.append_assoc]
    | false =>
    cases h7 : (c == '\r') with
    | true =>
      rcases eq_of_beq h7 with rfl
      rw [show escChar '\r' = ['\\', 'r'] from rfl]
      simp only [List.cons_append, List.nil_append]
      rw [parseStrAux_esc_r, ih ('\r' :: acc) rest]
      simp [List.append_assoc]
    | false =>
    by_cases h8 : c.toNat < 32
    · have hesc : escChar c =
          ['\\', 'u', '0', '0', hexDigit (c.toNat / 16), hexDigit (c.toNat % 16)] := by
        unfold escChar
        rw [h1, h2, h3, h4, h5, h6, h7]
        simp [h8]
      rw [hesc]
      simp only [List.cons_append, List.nil_append]
      rw [parseStrAux_esc_u c h8, ih (c :: acc) rest]
      simp [List.append_assoc]
    · have hesc : escChar c = [c] := by
        unfold escChar
        rw [h1, h2, h3, h4, h5, h6, h7]
        simp [h8]
      rw [hesc]
      simp only [List.cons_append, List.nil_append]
      rw [parseStrAux_plain c _ _ h1 h2 h8, ih (c :: acc) rest]
      simp [List.append_assoc]

/-! ## Round trip of whole values -/

theorem needVal_pos (v : JVal) : 0 < needVal v := by
  cases v with
  | jarr l => cases l <;> simp [needVal]
  | jobj fs => cases fs <;> simp [needVal]
  | _ => simp [needVal]

theorem needList_pos (l : JList) : 0 < needList l := by
  cases l <;> simp [needList]

theorem needFields_pos (fs : JFields) : 0 < needFields fs := by
  cases fs <;> simp [needFields]

theorem skipWs_not_ws {c : Char} (h : isWs c = false) (cs : List Char) :
    skipWs (c :: cs) = c :: cs := by
  simp [skipWs, List.dropWhile_cons, h]

theorem parseVal_null (fuel : Nat) (r : List Char) :
    parseVal (fuel + 1) ('n' :: 'u' :: 'l' :: 'l' :: r) = some (.jnull, r) := by
  conv_lhs => rw [parseVal.eq_def]
  rfl

theorem parseVal_true (fuel : Nat) (r : List Char) :
    parseVal (fuel + 1) ('t' :: 'r' :: 'u' :: 'e' :: r) = some (.jbool true, r) := by
  conv_lhs => rw [parseVal.eq_def]
  rfl

theorem parseVal_false (fuel : Nat) (r : List Char) :
    parseVal (fuel + 1) ('f' :: 'a' :: 'l' :: 's' :: 'e' :: r) =
      some (.jbool false, r) := by
  conv_lhs => rw [parseVal.eq_def]
  rfl

theorem parseVal_quote (fuel : Nat) (r : List Char) :
    parseVal (fuel + 1) ('"' :: r) =
      (parseStrAux r []).map (fun p => (.jstr p.1, p.2)) := by
  conv_lhs => rw [parseVal.eq_def]
  rfl

theorem parseVal_lbrace (fuel : Nat) (r : List Char) :
    parseVal (fuel + 1) ('{' :: r) =
      (match skipWs r with
       | '}' :: rest2 => some (.jobj .fnil, rest2)
       | rest2 => parseFieldsBody fuel rest2) := by
  conv_lhs => rw [parseVal.eq_def]
  rfl

theorem parseVal_lbrack (fuel : Nat) (r : List Char) :
    parseVal (fuel + 1) ('[' :: r) =
      (match skipWs r with
       | ']' :: rest2 => some (.jarr .jnil, rest2)
       | rest2 => parseListBody fuel rest2) := by
  conv_lhs => rw [parseVal.eq_def]
  rfl

theorem parseVal_minus (fuel : Nat) (r : List Char) :
    parseVal (fuel + 1) ('-' :: r) =
      (parseNum ('-' :: r)).map (fun p => (.jnum p.1, p.2)) := by
  conv_lhs => rw [parseVal.eq_def]
  rfl

theorem parseVal_digit (fuel : Nat) (c : Char) (hd : isDigit c = true) (r : List Char) :
    parseVal (fuel + 1) (c :: r) =
      (parseNum (c :: r)).map (fun p => (.jnum p.1, p.2)) := by
  have hb := toNat_bounds_of_isDigit hd
  have hws : isWs c = false := by
    unfold isWs
    rw [beq_false_of_toNat_ne (by have : (' ' : Char).toNat = 32 := rfl; omega),
      beq_false_of_toNat_ne (by have : ('\t' : Char).toNat = 9 := rfl; omega),
      beq_false_of_toNat_ne (by have : ('\n' : Char).toNat = 10 := rfl; omega),
      beq_false_of_toNat_ne (by have : ('\r' : Char).toNat = 13 := rfl; omega)]
    rfl
  conv_lhs => rw [parseVal.eq_def]
  simp only [skipWs_not_ws hws]
  simp only [beq_false_of_toNat_ne (show c.toNat ≠ ('{' : Char).toNat by
      have : ('{' : Char).toNat = 123 := rfl; omega),
    beq_false_of_toNat_ne (show c.toNat ≠ ('[' : Char).toNat by
      have : ('[' : Char).toNat = 91 := rfl; omega),
    beq_false_of_toNat_ne (show c.toNat ≠ ('"' : Char).toNat by
      have : ('"' : Char).toNat = 34 := rfl; omega),
    beq_false_of_toNat_ne (show c.toNat ≠ ('t' : Char).toNat by
      have : ('t' : Char).toNat = 116 := rfl; omega),
    beq_false_of_toNat_ne (show c.toNat ≠ ('f' : Char).toNat by
      have : ('f' : Char).toNat = 102 := rfl; omega),
    beq_false_of_toNat_ne (show c.toNat ≠ ('n' : Char).toNat by
      have : ('n' : Char).toNat = 110 := rfl; omega),
    Bool.false_eq_true, if_false]

/-- The head character of an encoded value: never whitespace, never a
closing bracket. -/
theorem encodeVal_head (v : JVal) :
    ∃ c cs, encodeVal v = c :: cs ∧ isWs c = false ∧ c ≠ ']' ∧ c ≠ '}' := by
  cases v with
  | jnull => exact ⟨'n', _, rfl, by decide⟩
  | jbool b => cases b with
    | true => exact ⟨'t', _, rfl, by decide⟩
    | false => exact ⟨'f', _, rfl, by decide⟩
  | jnum n =>
    show ∃ c cs, encodeInt n = c :: cs ∧ _
    by_cases h : n < 0
    · refine ⟨'-', natDigits (-n).toNat, ?_, by decide⟩
      unfold encodeInt
      rw [if_pos h]
    · cases hnd : natDigits n.toNat with
      | nil => exact absurd hnd (natDigits_ne_nil _)
      | cons c cs =>
        have hdig : isDigit c = true :=
          natDigits_all_digits _ c (hnd ▸ List.mem_cons_self c cs)
        have hb := toNat_bounds_of_isDigit hdig
        refine ⟨c, cs, ?_, ?_, ?_, ?_⟩
        · unfold encodeInt
          rw [if_neg h, hnd]
        · unfold isWs
          rw [beq_false_of_toNat_ne (by have : (' ' : Char).toNat = 32 := rfl; omega),
            beq_false_of_toNat_ne (by have : ('\t' : Char).toNat = 9 := rfl; omega),
            beq_false_of_toNat_ne (by have : ('\n' : Char).toNat = 10 := rfl; omega),
            beq_false_of_toNat_ne (by have : ('\r' : Char).toNat = 13 := rfl; omega)]
          rfl
        · intro he
          rw [he] at hb
          exact absurd hb (by decide)
        · intro he
          rw [he] at hb
          exact absurd hb (by decide)
  | jstr s => exact ⟨'"', _, rfl, by decide⟩
  | jarr l => cases l with
    | jnil => exact ⟨'[', _, rfl, by decide⟩
    | jcons v tl => exact ⟨'[', _, rfl, by decide⟩
  | jobj fs => cases fs with
    | fnil => exact ⟨'{', _, rfl, by decide⟩
    | fcons k v tl => exact ⟨'{', _, rfl, by decide⟩

/-- The body of a nonempty encoded array starts with its first
element's encoding. -/
theorem encodeListBody_cons (v : JVal) (l : JList) :
    ∃ t, encodeListBody (.jcons v l) = encodeVal v ++ t := by
  cases l with
  | jnil => exact ⟨[], by simp [encodeListBody]⟩
  | jcons w tl => exact ⟨',' :: encodeListBody (.jcons w tl), by simp [encodeListBody]⟩

/-- The body of a nonempty encoded object starts with a quote. -/
theorem encodeFieldsBody_cons (k : String) (v : JVal) (fs : JFields) :
    ∃ t, encodeFieldsBody (.fcons k v fs) = '"' :: t := by
  cases fs with
  | fnil =>
    exact ⟨escBody k.data ++ ['"'] ++ ':' :: encodeVal v, by
      simp [encodeFieldsBody, encodeStrLit]⟩
  | fcons k2 w tl =>
    exact ⟨escBody k.data ++ ['"'] ++ ':' :: encodeVal v
        ++ ',' :: encodeFieldsBody (.fcons k2 w tl), by
      simp [encodeFieldsBody, encodeStrLit]⟩

theorem skipWs_encodeFields (k : String) (v : JVal) (tl : JFields) (r : List Char) :
    skipWs (encodeFieldsBody (.fcons k v tl) ++ r) = encodeFieldsBody (.fcons k v tl) ++ r := by
  obtain ⟨t2, ht2⟩ := encodeFieldsBody_cons k v tl
  rw [ht2, List.cons_append]
  rfl

mutual
theorem parseVal_encode : ∀ (v : JVal) (fuel : Nat) (rest : List Char),
    needVal v ≤ fuel → digitStart rest = false →
    parseVal fuel (encodeVal v ++ rest) = some (v, rest)
  | v, 0, _, hf, _ => absurd hf (by have := needVal_pos v; omega)
  | .jnull, fuel + 1, rest, _, _ => by
    rw [show encodeVal .jnull ++ rest = 'n' :: 'u' :: 'l' :: 'l' :: rest from rfl,
      parseVal_null]
  | .jbool true, fuel + 1, rest, _, _ => by
    rw [show encodeVal (.jbool true) ++ rest = 't' :: 'r' :: 'u' :: 'e' :: rest from rfl,
      parseVal_true]
  | .jbool false, fuel + 1, rest, _, _ => by
    rw [show encodeVal (.jbool false) ++ rest
        = 'f' :: 'a' :: 'l' :: 's' :: 'e' :: rest from rfl, parseVal_false]
  | .jnum n, fuel + 1, rest, _, hr => by
    show parseVal (fuel + 1) (encodeInt n ++ rest) = _
    by_cases h : n < 0
    · have henc : encodeInt n = '-' :: natDigits (-n).toNat := by
        unfold encodeInt
        rw [if_pos h]
      rw [henc, List.cons_append, parseVal_minus, ← List.cons_append, ← henc,
        parseNum_encodeInt n rest hr]
      rfl
    · cases hnd : natDigits n.toNat with
      | nil => exact absurd hnd (natDigits_ne_nil _)
      | cons c cs =>
        have hdig : isDigit c = true :=
          natDigits_all_digits _ c (hnd ▸ List.mem_cons_self c cs)
        have henc : encodeInt n = c :: cs := by
          unfold encodeInt
          rw [if_neg h, hnd]
        rw [henc, List.cons_append, parseVal_digit fuel c hdig, ← List.cons_append,
          ← henc, parseNum_encodeInt n rest hr]
        rfl
  | .jstr s, fuel + 1, rest, _, _ => by
    rw [show encodeVal (.jstr s) ++ rest = '"' :: (escBody s.data ++ ('"' :: rest)) by
      simp [encodeVal, encodeStrLit], parseVal_quote,
      parseStrAux_escBody s.data [] rest]
    simp [string_mk_data]
  | .jarr .jnil, fuel + 1, rest, _, _ => by
    rw [show encodeVal (.jarr .jnil) ++ rest = '[' :: (']' :: rest) by
      simp [encodeVal, encodeListBody], parseVal_lbrack]
    rfl
  | .jarr (.jcons v l), fuel + 1, rest, hf, _ => by
    have hfl : needList (.jcons v l) ≤ fuel := by
      have hv : needVal (.jarr (.jcons v l)) = needList (.jcons v l) + 1 := rfl
      omega
    rw [show encodeVal (.jarr (.jcons v l)) ++ rest
        = '[' :: (encodeListBody (.jcons v l) ++ (']' :: rest)) by
      simp [encodeVal], parseVal_lbrack]
    obtain ⟨t, ht⟩ := encodeListBody_cons v l
    obtain ⟨c, cs, hcons, hws, hne1, _⟩ := encodeVal_head v
    have hshape : encodeListBody (.jcons v l) ++ (']' :: rest)
        = c :: (cs ++ (t ++ (']' :: rest))) := by
      rw [ht, hcons]
      simp
    rw [hshape, skipWs_not_ws hws]
    have hred : (match c :: (cs ++ (t ++ (']' :: rest))) with
        | ']' :: rest2 => some (JVal.jarr JList.jnil, rest2)
        | rest2 => parseListBody fuel rest2)
        = parseListBody fuel (c :: (cs ++ (t ++ (']' :: rest)))) := by
      split
      · rename_i heq
        injection heq with h1 _
        exact absurd h1 hne1
      · rfl
    rw [hred, ← hshape]
    exact parseListBody_encode v l fuel rest hfl
  | .jobj .fnil, fuel + 1, rest, _, _ => by
    rw [show encodeVal (.jobj .fnil) ++ rest = '{' :: ('}' :: rest) by
      simp [encodeVal, encodeFieldsBody], parseVal_lbrace]
    rfl
  | .jobj (.fcons k v fs), fuel + 1, rest, hf, _ => by
    have hfl : needFields (.fcons k v fs) ≤ fuel := by
      have hv : needVal (.jobj (.fcons k v fs)) = needFields (.fcons k v fs) + 1 := rfl
      omega
    rw [show encodeVal (.jobj (.fcons k v fs)) ++ rest
        = '{' :: (encodeFieldsBody (.fcons k v fs) ++ ('}' :: rest)) by
      simp [encodeVal], parseVal_lbrace]
    obtain ⟨t, ht⟩ := encodeFieldsBody_cons k v fs
    have hshape : encodeFieldsBody (.fcons k v fs) ++ ('}' :: rest)
        = '"' :: (t ++ ('}' :: rest)) := by
      rw [ht]
      simp
    rw [hshape]
    rw [show (match skipWs ('"' :: (t ++ ('}' :: rest))) with
        | '}' :: rest2 => some (JVal.jobj JFields.fnil, rest2)
        | rest2 => parseFieldsBody fuel rest2)
        = parseFieldsBody fuel ('"' :: (t ++ ('}' :: rest))) from rfl]
    rw [← hshape]
    exact parseFieldsBody_encode k v fs fuel rest hfl
termination_by v _ _ _ _ => sizeOf v

theorem parseListBody_encode : ∀ (v : JVal) (l : JList) (fuel : Nat) (rest : List Char),
    needList (.jcons v l) ≤ fuel →
    parseListBody fuel (encodeListBody (.jcons v l) ++ (']' :: rest))
      = some (.jarr (.jcons v l), rest)
  | v, l, 0, _, hf => absurd hf (by have := needList_pos (.jcons v l); omega)
  | v, .jnil, fuel + 1, rest, hf => by
    have hfv : needVal v ≤ fuel := by
      have : needList (.jcons v .jnil) = max (needVal v) (needList .jnil) + 1 := rfl
      omega
    show parseListBody (fuel + 1) (encodeVal v ++ (']' :: rest)) = _
    conv_lhs => rw [parseListBody.eq_def]
    simp only [parseVal_encode v fuel (']' :: rest) hfv rfl]
    rfl
  | v, .jcons w tl, fuel + 1, rest, hf => by
    have hfv : needVal v ≤ fuel := by
      have : needList (.jcons v (.jcons w tl))
          = max (needVal v) (needList (.jcons w tl)) + 1 := rfl
      omega
    have hftl : needList (.jcons w tl) ≤ fuel := by
      have : needList (.jcons v (.jcons w tl))
          = max (needVal v) (needList (.jcons w tl)) + 1 := rfl
      omega
    show parseListBody (fuel + 1)
        ((encodeVal v ++ ',' :: encodeListBody (.jcons w tl)) ++ (']' :: rest)) = _
    rw [List.append_assoc, List.cons_append]
    conv_lhs => rw [parseListBody.eq_def]
    simp only [parseVal_encode v fuel (',' :: (encodeListBody (.jcons w tl) ++ ']' :: rest))
      hfv rfl]
    rw [show skipWs (',' :: (encodeListBody (.jcons w tl) ++ ']' :: rest))
        = ',' :: (encodeListBody (.jcons w tl) ++ ']' :: rest) from rfl]
    simp only [parseListBody_encode w tl fuel rest hftl]
termination_by v l _ _ _ => sizeOf (JList.jcons v l)

theorem parseFieldsBody_encode : ∀ (k : String) (v : JVal) (fs : JFields) (fuel : Nat)
    (rest : List Char), needFields (.fcons k v fs) ≤ fuel →
    parseFieldsBody fuel (encodeFieldsBody (.fcons k v fs) ++ ('}' :: rest))
      = some (.jobj (.fcons k v fs), rest)
  | k, v, fs, 0, _, hf => absurd hf (by have := needFields_pos (.fcons k v fs); omega)
  | k, v, .fnil, fuel + 1, rest, hf => by
    have hfv : needVal v ≤ fuel := by
      have : needFields (.fcons k v .fnil) = max (needVal v) (needFields .fnil) + 1 := rfl
      omega
    show parseFieldsBody (fuel + 1)
        ((encodeStrLit k ++ ':' :: encodeVal v) ++ ('}' :: rest)) = _
    rw [show (encodeStrLit k ++ ':' :: encodeVal v) ++ ('}' :: rest)
        = '"' :: (escBody k.data ++ ('"' :: (':' :: (encodeVal v ++ '}' :: rest)))) by
      simp [encodeStrLit]]
    conv_lhs => rw [parseFieldsBody.eq_def]
    simp only [parseStrAux_escBody k.data [] (':' :: (encodeVal v ++ '}' :: rest))]
    rw [show skipWs (':' :: (encodeVal v ++ '}' :: rest))
        = ':' :: (encodeVal v ++ '}' :: rest) from rfl]
    simp only [parseVal_encode v fuel ('}' :: rest) hfv rfl]
    rw [show skipWs ('}' :: rest) = '}' :: rest from rfl]
    simp [string_mk_data]
  | k, v, .fcons k2 w tl, fuel + 1, rest, hf => by
    have hfv : needVal v ≤ fuel := by
      have : needFields (.fcons k v (.fcons k2 w tl))
          = max (needVal v) (needFields (.fcons k2 w tl)) + 1 := rfl
      omega
    have hftl : needFields (.fcons k2 w tl) ≤ fuel := by
      have : needFields (.fcons k v (.fcons k2 w tl))
          = max (needVal v) (needFields (.fcons k2 w tl)) + 1 := rfl
      omega
    show parseFieldsBody (fuel + 1)
        ((encodeStrLit k ++ ':' :: encodeVal v ++ ',' :: encodeFieldsBody (.fcons k2 w tl))
          ++ ('}' :: rest)) = _
    rw [show (encodeStrLit k ++ ':' :: encodeVal v ++ ',' :: encodeFieldsBody (.fcons k2 w tl))
          ++ ('}' :: rest)
        = '"' :: (escBody k.data ++ ('"' :: (':' :: (encodeVal v
            ++ ',' :: (encodeFieldsBody (.fcons k2 w tl) ++ '}' :: rest))))) by
      simp [encodeStrLit]]
    conv_lhs => rw [parseFieldsBody.eq_def]
    simp only [parseStrAux_escBody k.data []
      (':' :: (encodeVal v ++ ',' :: (encodeFieldsBody (.fcons k2 w tl) ++ '}' :: rest)))]
    rw [show skipWs (':' :: (encodeVal v
        ++ ',' :: (encodeFieldsBody (.fcons k2 w tl) ++ '}' :: rest)))
        = ':' :: (encodeVal v ++ ',' :: (encodeFieldsBody (.fcons k2 w tl) ++ '}' :: rest))
        from rfl]
    simp only [parseVal_encode v fuel
      (',' :: (encodeFieldsBody (.fcons k2 w tl) ++ '}' :: rest)) hfv rfl]
    rw [show skipWs (',' :: (encodeFieldsBody (.fcons k2 w tl) ++ '}' :: rest))
        = ',' :: (encodeFieldsBody (.fcons k2 w tl) ++ '}' :: rest) from rfl]
    simp only [skipWs_encodeFields k2 w tl ('}' :: rest),
      parseFieldsBody_encode k2 w tl fuel rest hftl]
    simp [string_mk_data]
termination_by k v fs _ _ _ => sizeOf (JFields.fcons k v fs)
end

/-! ## Encoder output drives the parser: fuel bounds and the round trip -/

theorem encodeVal_length_pos (v : JVal) : 0 < (encodeVal v).length := by
  cases v with
  | jnull => decide
  | jbool b => cases b <;> decide
  | jnum n =>
    show 0 < (encodeInt n).length
    unfold encodeInt
    split
    · simp
    · exact List.length_pos.mpr (natDigits_ne_nil _)
  | jstr s =>
    show 0 < ('"' :: (escBody s.data ++ ['"'])).length
    simp
  | jarr l =>
    show 0 < ('[' :: (encodeListBody l ++ [']'])).length
    simp
  | jobj fs =>
    show 0 < ('{' :: (encodeFieldsBody fs ++ ['}'])).length
    simp

mutual
theorem needVal_le : ∀ v : JVal, needVal v ≤ (encodeVal v).length
  | .jnull => by decide
  | .jbool true => by decide
  | .jbool false => by decide
  | .jnum n => by
    have h := encodeVal_length_pos (.jnum n)
    simp only [needVal]
    omega
  | .jstr s => by
    show 1 ≤ ('"' :: (escBody s.data ++ ['"'])).length
    simp only [List.length_cons]
    omega
  | .jarr .jnil => by decide
  | .jarr (.jcons v l) => by
    have h := needList_le v l
    show needList (.jcons v l) + 1 ≤ ('[' :: (encodeListBody (.jcons v l) ++ [']'])).length
    simp only [List.length_cons, List.length_append, List.length_nil]
    omega
  | .jobj .fnil => by decide
  | .jobj (.fcons k v fs) => by
    have h := needFields_le k v fs
    show needFields (.fcons k v fs) + 1
        ≤ ('{' :: (encodeFieldsBody (.fcons k v fs) ++ ['}'])).length
    simp only [List.length_cons, List.length_append, List.length_nil]
    omega
termination_by v => sizeOf v

theorem needList_le : ∀ (v : JVal) (l : JList),
    needList (.jcons v l) ≤ (encodeListBody (.jcons v l)).length + 1
  | v, .jnil => by
    have h := needVal_le v
    have h1 := encodeVal_length_pos v
    show max (needVal v) (needList .jnil) + 1 ≤ (encodeVal v).length + 1
    simp only [needList]
    omega
  | v, .jcons w tl => by
    have h := needVal_le v
    have h2 := needList_le w tl
    show max (needVal v) (needList (.jcons w tl)) + 1
        ≤ (encodeVal v ++ ',' :: encodeListBody (.jcons w tl)).length + 1
    simp only [List.length_append, List.length_cons]
    omega
termination_by v l => sizeOf (JList.jcons v l)

theorem needFields_le : ∀ (k : String) (v : JVal) (fs : JFields),
    needFields (.fcons k v fs) ≤ (encodeFieldsBody (.fcons k v fs)).length + 1
  | k, v, .fnil => by
    have h := needVal_le v
    show max (needVal v) (needFields .fnil) + 1
        ≤ (encodeStrLit k ++ ':' :: encodeVal v).length + 1
    simp only [needFields, List.length_append, List.length_cons]
    omega
  | k, v, .fcons k2 w tl => by
    have h := needVal_le v
    have h2 := needFields_le k2 w tl
    rw [show encodeFieldsBody (.fcons k v (.fcons k2 w tl))
        = encodeStrLit k ++ ':' :: encodeVal v ++ ',' :: encodeFieldsBody (.fcons k2 w tl)
        from rfl,
      show needFields (.fcons k v (.fcons k2 w tl))
        = max (needVal v) (needFields (.fcons k2 w tl)) + 1 from rfl]
    simp only [List.length_append, List.length_cons]
    omega
termination_by k v fs => sizeOf (JFields.fcons k v fs)
end

/-- `JSON.parse` recovers every encoded value exactly. -/
theorem jsonParse_encode (v : JVal) : jsonParse (String.mk (encodeVal v)) = some v := by
  have h := parseVal_encode v ((encodeVal v).length + 1) []
    (le_trans (needVal_le v) (Nat.le_succ _)) rfl
  rw [List.append_nil] at h
  simp only [jsonParse]
  rw [h]
  rfl

/-- `deserialize(serialize(v))` recovers `v` whenever `v` is not a
string that `JSON.parse` itself accepts. -/
theorem deserialize_serialize (v : JVal)
    (hstr : ∀ s, v = .jstr s → jsonParse s = none) :
    deserialize (serialize v) = v := by
  cases v with
  | jstr s => simp [serialize, deserialize, hstr s rfl]
  | jnull => simp [serialize, deserialize, jsonParse_encode]
  | jbool b => cases b <;> simp [serialize, deserialize, jsonParse_encode]
  | jnum n => simp [serialize, deserialize, jsonParse_encode]
  | jarr l => simp [serialize, deserialize, jsonParse_encode]
  | jobj fs => simp [serialize, deserialize, jsonParse_encode]

/-! ## C7: the set/get round trip -/

/-- C7 counterexample: the round-trip law fails for the string value
"123".  `serialize` passes strings through unchanged and `deserialize`
runs `JSON.parse` first, so the stored string comes back as the number
123: `set("k", "123")` then `get("k")` yields `jnum 123`, not deep-equal
to the original `jstr "123"`. -/
theorem set_get_json_string_counterexample :
    (Cache.get cfgDefault idCodec
        (Cache.set cfgDefault idCodec ⟨[], ⟨0, 0, 0, 0, 0⟩, []⟩ "k" (.jstr "123")
          SetOptions.plain).2 "k" GetOptions.plain).1 = .ok (some (.jnum 123)) ∧
    JVal.jnum 123 ≠ JVal.jstr "123" := by
  constructor
  · rfl
  · decide

/-- C7 (amended): for every valid key and every value that is not a
string `JSON.parse` accepts (numbers, nested objects, arrays, booleans,
null, and strings that do not parse as JSON), a plain `set` succeeds
and an immediately following `get` returns a value deep-equal to the
original, given the gzip round-trip contract and no stale metadata
record under the derived cache key. -/
theorem set_get_roundtrip (cfg : EffConfig) (cd : Codec) (st : CacheState)
    (key : String) (v : JVal)
    (hv : validateKey key = .ok ())
    (hcd : ∀ s, cd.decomp (cd.comp s) = s)
    (hstr : ∀ s, v = .jstr s → jsonParse s = none)
    (hmeta : st.store.find?
      (generateCacheKey key (some cfg.defaultNamespace) (some cfg.keyPrefix) ++ ":meta")
        = none) :
    (Cache.set cfg cd st key v SetOptions.plain).1 = .ok true ∧
    (Cache.get cfg cd (Cache.set cfg cd st key v SetOptions.plain).2 key
        GetOptions.plain).1 = .ok (some v) := by
  set ck := generateCacheKey key (some cfg.defaultNamespace) (some cfg.keyPrefix) with hckd
  have hcond := rsetCond_plain st.store ck
    (if cfg.enableCompression && shouldCompress (serialize v) 1024
      then cd.comp (serialize v) else serialize v)
    cfg.defaultTtl
  have heq := set_eq_of_cond_some cfg cd st key v SetOptions.plain
    (rsetStr st.store ck
      (if cfg.enableCompression && shouldCompress (serialize v) 1024
        then cd.comp (serialize v) else serialize v)
      (if 0 < cfg.defaultTtl then some cfg.defaultTtl else none))
    hv hcond
  simp only [SetOptions.plain, Option.getD_none, Option.isSome_none, Bool.or_false,
    parseTtl, orTruthyInt] at heq
  rw [show (⟨none, none, none, none, false, false⟩ : SetOptions) = SetOptions.plain
    from rfl] at heq
  rw [← hckd] at heq
  cases hcmp : cfg.enableCompression && shouldCompress (serialize v) 1024 with
  | false =>
    simp only [hcmp, Bool.false_eq_true, if_false] at heq
    rw [heq]
    refine ⟨rfl, ?_⟩
    have hvget : rget (rsetStr st.store ck (serialize v)
        (if 0 < cfg.defaultTtl then some cfg.defaultTtl else none)) ck
        = some (serialize v) := by
      simp [rget, find?_rsetStr_self]
    have hmget : rhgetall (rsetStr st.store ck (serialize v)
        (if 0 < cfg.defaultTtl then some cfg.defaultTtl else none)) (ck ++ ":meta")
        = none := by
      simp only [rhgetall, find?_rsetStr_ne _ _ _ _ _ (meta_append_ne ck), hmeta]
    simp only [Cache.get, hv, GetOptions.plain, Option.getD_none]
    rw [← hckd]
    simp only [hvget, hmget]
    rw [deserialize_serialize v hstr]
  | true =>
    simp only [hcmp, eq_self_iff_true, if_true] at heq
    rw [heq]
    refine ⟨rfl, ?_⟩
    by_cases hpos : 0 < cfg.defaultTtl
    · rw [if_pos hpos] at heq ⊢
      have hvget : rget (rexpire (rhset (rsetStr st.store ck (cd.comp (serialize v))
          (if 0 < cfg.defaultTtl then some cfg.defaultTtl else none))
          (ck ++ ":meta") ⟨true, []⟩) (ck ++ ":meta") cfg.defaultTtl) ck
          = some (cd.comp (serialize v)) := by
        simp [rget, find?_rexpire_ne _ _ _ _ (ne_append_meta ck),
          find?_rhset_ne _ _ _ _ (ne_append_meta ck), find?_rsetStr_self]
      have hmget : rhgetall (rexpire (rhset (rsetStr st.store ck (cd.comp (serialize v))
          (if 0 < cfg.defaultTtl then some cfg.defaultTtl else none))
          (ck ++ ":meta") ⟨true, []⟩) (ck ++ ":meta") cfg.defaultTtl) (ck ++ ":meta")
          = some ⟨true, []⟩ := by
        rw [rhgetall_rexpire]
        simp [rhgetall, find?_rhset_self]
      simp only [Cache.get, hv, GetOptions.plain, Option.getD_none]
      rw [← hckd]
      simp only [hvget, hmget]
      rw [hcd (serialize v)]
      simp only [if_true]
      rw [deserialize_serialize v hstr]
    · rw [if_neg hpos] at heq ⊢
      have hvget : rget (rhset (rsetStr st.store ck (cd.comp (serialize v))
          (if 0 < cfg.defaultTtl then some cfg.defaultTtl else none))
          (ck ++ ":meta") ⟨true, []⟩) ck
          = some (cd.comp (serialize v)) := by
        simp [rget, find?_rhset_ne _ _ _ _ (ne_append_meta ck), find?_rsetStr_self]
      have hmget : rhgetall (rhset (rsetStr st.store ck (cd.comp (serialize v))
          (if 0 < cfg.defaultTtl then some cfg.defaultTtl else none))
          (ck ++ ":meta") ⟨true, []⟩) (ck ++ ":meta")
          = some ⟨true, []⟩ := by
        simp [rhgetall, find?_rhset_self]
      simp only [Cache.get, hv, GetOptions.plain, Option.getD_none]
      rw [← hckd]
      simp only [hvget, hmget]
      rw [hcd (serialize v)]
      simp only [if_true]
      rw [deserialize_serialize v hstr]

/-- Witness for the amended C7 theorem: a nested object round-trips
through a plain set/get on an empty cache under the default
configuration. -/
theorem set_get_roundtrip_witness :
    (Cache.set cfgDefault idCodec ⟨[], ⟨0, 0, 0, 0, 0⟩, []⟩ "k"
        (.jobj (.fcons "a" (.jnum 1) (.fcons "b" (.jarr (.jcons (.jstr "x") .jnil)) .fnil)))
        SetOptions.plain).1 = .ok true ∧
    (Cache.get cfgDefault idCodec
        (Cache.set cfgDefault idCodec ⟨[], ⟨0, 0, 0, 0, 0⟩, []⟩ "k"
          (.jobj (.fcons "a" (.jnum 1) (.fcons "b" (.jarr (.jcons (.jstr "x") .jnil)) .fnil)))
          SetOptions.plain).2 "k" GetOptions.plain).1 =
      .ok (some (.jobj (.fcons "a" (.jnum 1)
        (.fcons "b" (.jarr (.jcons (.jstr "x") .jnil)) .fnil)))) :=
  set_get_roundtrip cfgDefault idCodec ⟨[], ⟨0, 0, 0, 0, 0⟩, []⟩ "k"
    (.jobj (.fcons "a" (.jnum 1) (.fcons "b" (.jarr (.jcons (.jstr "x") .jnil)) .fnil)))
    rfl (fun _ => rfl) (fun _ h => JVal.noConfusion h) rfl

end Frache
